import Mathlib

/-!
# Verification of the corpochain beacon-client consensus core

A shallow embedding, in Lean 4, of the consensus core of the
corpochain beacon client:

* `src/corpochain/consensus/block_rewards.py`
  (`create_withdrawals`, `_calculate_block_reward`),
* `src/corpochain/consensus/block_body_validation.py`
  (`validate_block_body`),
* `src/corpochain/consensus/blockchain.py`
  (`Blockchain.receive_block`, `Blockchain._reconsider_peak`,
  `Blockchain.clean_block_record`, `Blockchain.clean_block_records`,
  `Blockchain.get_recent_reward_challenges`),
* `src/corpochain/consensus/multiprocess_validation.py`
  (`pre_validate_blocks_multiprocessing`).

Python `dict`s are modelled as association lists with Python's
insertion-order semantics (`dictSet`, `dictGet`, `dictDel`); machine
integers (`uint32`, `uint64`, `uint128`) are modelled as `Nat`, which is
faithful here because every arithmetic operation in the embedded code
either is guarded to stay non-negative or is a Python unbounded-int
operation; hashes (`bytes32`) and addresses (`bytes20`) are abstracted
to `Nat`.  Asynchronous methods carry no concurrency that matters to
the embedded logic (they are run under the blockchain writer lock), so
they are embedded as pure state transformers; a Python exception
(failed `assert`, `KeyError`, store miss) is modelled by the value
`none` of an `Option`-typed result.

Collaborator components whose sources are not part of the consensus
core (the block store, the height map, `block_to_block_record`,
`find_fork_point_in_chain`, the execution client) are modelled from
the specification's description of their interfaces; each such
definition carries a doc comment saying so.
-/

namespace Corpochain

/-- Hashes (`bytes32`) abstracted to natural numbers. -/
abbrev Hash := Nat

/-- Python `dict` lookup (`d[k]` / `d.get(k)`), on an association list
with unique keys kept in insertion order. -/
def dictGet {α : Type} (l : List (Nat × α)) (k : Nat) : Option α :=
  match l with
  | [] => none
  | (k', v) :: rest => if k' = k then some v else dictGet rest k

/-- Python `dict` assignment `d[k] = v`: replaces the value in place if
the key is present, appends otherwise. -/
def dictSet {α : Type} (l : List (Nat × α)) (k : Nat) (v : α) : List (Nat × α) :=
  match l with
  | [] => [(k, v)]
  | (k', v') :: rest => if k' = k then (k, v) :: rest else (k', v') :: dictSet rest k v

/-- Python `del d[k]`: removes the entry with key `k` (keys are unique). -/
def dictDel {α : Type} (l : List (Nat × α)) (k : Nat) : List (Nat × α) :=
  l.filter (fun p => p.1 ≠ k)

/-- `k in d` for a Python dict. -/
def dictContains {α : Type} (l : List (Nat × α)) (k : Nat) : Bool :=
  (dictGet l k).isSome

/-- The error codes of `corpochain.util.errors.Err` that the embedded
consensus-core code paths can produce. -/
inductive Err where
  | INVALID_PREV_BLOCK_HASH
  | INVALID_HEIGHT
  | INVALID_POSPACE
  | INVALID_SUB_EPOCH_SUMMARY
  | PAYLOAD_INVALIDATED
  | PAYLOAD_NOT_VALIDATED
  | UNKNOWN
  | OTHER (code : Nat)
  deriving DecidableEq, Repr

/-- `ReceiveBlockResult` from `corpochain/consensus/blockchain.py`. -/
inductive ReceiveBlockResult where
  | NEW_PEAK
  | ADDED_AS_ORPHAN
  | INVALID_BLOCK
  | ALREADY_HAVE_BLOCK
  | DISCONNECTED_BLOCK
  deriving DecidableEq, Repr

/-- `BlockRecord` (`corpochain/consensus/block_record.py`, a pure value
type; its source file is outside the consensus core, its fields are
those enumerated in the specification's data model).
`ip_sub_slot_total_iters` is a method on the original class; since its
source is not part of the core it is modelled from the spec as an
abstract per-record value (the total iterations at the start of the
record's infusion sub-slot). -/
structure BlockRecord where
  header_hash : Hash
  prev_hash : Hash
  height : Nat
  weight : Nat
  total_iters : Nat
  first_in_sub_slot : Bool
  is_transaction_block : Bool
  sub_slot_iters : Nat
  reward_infusion_new_challenge : Hash
  finished_challenge_slot_hashes : Option (List Hash)
  finished_reward_slot_hashes : Option (List Hash)
  sub_epoch_summary_included : Option Nat
  last_withdrawal_index : Option Nat
  coinbase : Nat
  ip_sub_slot_total_iters : Nat
  deriving DecidableEq, Repr

/-! ## block_rewards.py -/

/-- `_corpochain_to_gwei = 1000000000`. -/
def _corpochain_to_gwei : Nat := 1000000000

/-- `_blocks_per_year = 4608 * 2 * 365`. -/
def _blocks_per_year : Nat := 4608 * 2 * 365

/-- `_calculate_block_reward` from `block_rewards.py`.  The Python
source computes the fractional tiers as `uint64(0.5 * 1000000000)` etc.;
those float products are exact (`500000000.0`, `250000000.0`,
`125000000.0`), so the embedding uses the resulting integers. -/
def _calculate_block_reward (height : Nat) : Nat :=
  if height < 3 * _blocks_per_year then 2 * _corpochain_to_gwei
  else if height < 6 * _blocks_per_year then 1 * _corpochain_to_gwei
  else if height < 9 * _blocks_per_year then 500000000
  else if height < 12 * _blocks_per_year then 250000000
  else if height < 15 * _blocks_per_year then 125000000
  else 0

/-- `WithdrawalV1` (`corpochain/types/blockchain_format/execution_payload.py`,
outside the core): `(index, validation type, address, amount)` exactly as
constructed by `create_withdrawals`. -/
structure WithdrawalV1 where
  index : Nat
  wtype : Nat
  address : Nat
  amount : Nat
  deriving DecidableEq, Repr

/-- The constants consumed by the embedded code
(`corpochain/consensus/constants.py` declares them; their values come
from the network profile, so they stay parameters here). -/
structure ConsensusConstants where
  GENESIS_CHALLENGE : Hash
  PREFARM_ADDRESS : Nat
  PREFARM_AMOUNT : Nat
  BLOCKS_CACHE_SIZE : Nat
  MAX_SUB_SLOT_BLOCKS : Nat
  deriving Repr

/-- The `while True` loop of `create_withdrawals` (`block_rewards.py`
lines 40–56): emit a type-1 withdrawal for `curr`, stop if
`curr.prev_hash == GENESIS_CHALLENGE`, otherwise step to the parent via
`blocks.block_record` and stop (without emitting) if the parent is a
transaction block.  `blocks` is the `BlockchainInterface` record lookup;
a failed lookup (Python `KeyError`) and fuel exhaustion (the source's
loop just keeps walking) are both `none`. -/
def withdrawalsLoop (constants : ConsensusConstants) (blocks : Hash → Option BlockRecord) :
    Nat → BlockRecord → Nat → Option (List WithdrawalV1)
  | 0, _, _ => none
  | fuel + 1, curr, next_wd_index =>
    let w : WithdrawalV1 :=
      ⟨next_wd_index, 1, curr.coinbase, _calculate_block_reward curr.height⟩
    if curr.prev_hash = constants.GENESIS_CHALLENGE then
      some [w]
    else
      match blocks curr.prev_hash with
      | none => none
      | some parent =>
        if parent.is_transaction_block then
          some [w]
        else
          (withdrawalsLoop constants blocks fuel parent (next_wd_index + 1)).map (w :: ·)

/-- `create_withdrawals` from `block_rewards.py`.  `fuel` bounds the
number of iterations of the source's `while True` walk (the walk
terminates on any chain whose heights strictly decrease toward a
transaction-block or genesis ancestor, which every well-formed chain
satisfies). -/
def create_withdrawals (constants : ConsensusConstants) (blocks : Hash → Option BlockRecord)
    (prev_tx_block : BlockRecord) (fuel : Nat) : Option (List WithdrawalV1) :=
  let next_wd_index : Nat :=
    match prev_tx_block.last_withdrawal_index with
    | none => 0
    | some i => i + 1
  let prefarm : List WithdrawalV1 :=
    if prev_tx_block.height = 0 then
      [⟨next_wd_index, 0, constants.PREFARM_ADDRESS,
        constants.PREFARM_AMOUNT * _corpochain_to_gwei⟩]
    else []
  let next_wd_index := if prev_tx_block.height = 0 then next_wd_index + 1 else next_wd_index
  (withdrawalsLoop constants blocks fuel prev_tx_block next_wd_index).map (prefarm ++ ·)

/-! ## block_body_validation.py -/

/-- The two Engine-API calls `validate_block_body` can make. -/
inductive EngineCall where
  | newPayload
  | forkchoiceUpdate
  deriving DecidableEq, Repr

/-- The execution-client responses and configuration consumed by one
`validate_block_body` call.  The execution client lives outside the
core (`corpochain/beacon/execution_client.py` is not part of it); per
the spec its two operations return one of the Engine-API status
strings, compared literally by the source. -/
structure ExecEnv where
  newPayloadStatus : String
  forkchoiceStatus : String
  optimistic_import : Bool
  deriving Repr

/-- `validate_block_body` from `block_body_validation.py`, as a pure
function of the block shape (`isFullBlock` is the
`isinstance(block, FullBlock)` test, `hasPayload` is
`block.execution_payload is not None`) and the execution-client
responses.  Besides the returned `Optional[Err]` it records which
Engine-API calls were made.  The `assert height == block.height` and
`assert block_record is not None` of the source hold on every call site
embedded below and are dropped. -/
def validate_block_body (isFullBlock : Bool) (hasPayload : Bool) (env : ExecEnv) :
    Option Err × List EngineCall :=
  if ¬hasPayload then
    (none, [])
  else
    let status := env.newPayloadStatus
    if status = "INVALID" ∨ status = "INVALID_BLOCK_HASH" then
      (some Err.PAYLOAD_INVALIDATED, [EngineCall.newPayload])
    else if (status = "SYNCING" ∨ status = "ACCEPTED") ∧ ¬isFullBlock then
      (some Err.PAYLOAD_NOT_VALIDATED, [EngineCall.newPayload])
    else if ¬(status = "SYNCING" ∨ status = "ACCEPTED") ∧ status ≠ "VALID" then
      (some Err.UNKNOWN, [EngineCall.newPayload])
    else if isFullBlock then
      let status2 := env.forkchoiceStatus
      if status2 = "INVALID" ∨ status2 = "INVALID_BLOCK_HASH" then
        (some Err.PAYLOAD_INVALIDATED, [EngineCall.newPayload, EngineCall.forkchoiceUpdate])
      else if status2 = "SYNCING" ∨ status2 = "ACCEPTED" then
        if ¬env.optimistic_import then
          (some Err.PAYLOAD_NOT_VALIDATED, [EngineCall.newPayload, EngineCall.forkchoiceUpdate])
        else
          (none, [EngineCall.newPayload, EngineCall.forkchoiceUpdate])
      else if status2 ≠ "VALID" then
        (some Err.UNKNOWN, [EngineCall.newPayload, EngineCall.forkchoiceUpdate])
      else
        (none, [EngineCall.newPayload, EngineCall.forkchoiceUpdate])
    else
      (none, [EngineCall.newPayload])

/-! ## blockchain.py: state -/

/-- A full block together with the `BlockRecord` that
`block_to_block_record` derives from it.  Modelled from the spec:
`FullBlock` itself and `block_to_block_record`
(`corpochain/consensus/full_block_to_block_record.py`) are outside the
core; per the spec's data model and lifecycle the derived record
summarizes the block, so the embedding carries the record inside the
block (`header_hash`, `prev_header_hash` and `height` of the block are
the record's). -/
structure FullBlockM where
  record : BlockRecord
  execution_payload : Option Nat
  deriving DecidableEq, Repr

def FullBlockM.header_hash (b : FullBlockM) : Hash := b.record.header_hash
def FullBlockM.prev_header_hash (b : FullBlockM) : Hash := b.record.prev_hash
def FullBlockM.height (b : FullBlockM) : Nat := b.record.height

/-- Modelled from the spec: the Block Store
(`corpochain/beacon/block_store.py`, outside the core).  Durable
storage of full blocks with their records (`add_full_block`,
`get_full_block`, `get_block_record`), the canonical-membership
markings (`set_in_chain`), the peak pointer (`set_peak`) and the
persisted sub-epoch summaries, of which `rollback(height)` drops those
strictly above the given height. -/
structure Store where
  blocks : List (Nat × (FullBlockM × BlockRecord))
  inChain : List Hash
  peak : Option Hash
  ses : List (Nat × Nat)
  deriving DecidableEq, Repr

/-- Modelled from the spec: `BlockStore.add_full_block(hash, block, record)`. -/
def Store.add_full_block (s : Store) (h : Hash) (b : FullBlockM) (r : BlockRecord) : Store :=
  { s with blocks := dictSet s.blocks h (b, r) }

/-- Modelled from the spec: `BlockStore.get_full_block(hash)`. -/
def Store.get_full_block (s : Store) (h : Hash) : Option FullBlockM :=
  (dictGet s.blocks h).map (·.1)

/-- Modelled from the spec: `BlockStore.get_block_record(hash)`. -/
def Store.get_block_record (s : Store) (h : Hash) : Option BlockRecord :=
  (dictGet s.blocks h).map (·.2)

/-- Modelled from the spec: `BlockStore.set_in_chain([(hash,)])` marks
the given records as canonical. -/
def Store.set_in_chain (s : Store) (hs : List Hash) : Store :=
  { s with inChain := s.inChain ++ hs.filter (fun h => ¬ s.inChain.contains h) }

/-- Modelled from the spec: `BlockStore.set_peak(hash)`. -/
def Store.set_peak (s : Store) (h : Hash) : Store :=
  { s with peak := some h }

/-- Modelled from the spec: `BlockStore.rollback(height)` drops the
persisted sub-epoch summaries strictly above `height` (which can be
`-1` on a full reorg). -/
def Store.rollback (s : Store) (height : Int) : Store :=
  { s with ses := s.ses.filter (fun p => (p.1 : Int) ≤ height) }

/-- Modelled from the spec: the Height Map
(`corpochain/beacon/block_height_map.py`, outside the core); canonical
`height → (hash, sub_epoch_summary?)` entries. -/
structure HeightMap where
  entries : List (Nat × (Hash × Option Nat))
  deriving DecidableEq, Repr

/-- Modelled from the spec: `BlockHeightMap.contains_height(h)`. -/
def HeightMap.contains_height (m : HeightMap) (h : Nat) : Bool :=
  dictContains m.entries h

/-- Modelled from the spec: `BlockHeightMap.get_hash(h)`. -/
def HeightMap.get_hash (m : HeightMap) (h : Nat) : Option Hash :=
  (dictGet m.entries h).map (·.1)

/-- Modelled from the spec: `BlockHeightMap.update_height(h, hash, ses?)`. -/
def HeightMap.update_height (m : HeightMap) (h : Nat) (hash : Hash) (ses : Option Nat) :
    HeightMap :=
  ⟨dictSet m.entries h (hash, ses)⟩

/-- Modelled from the spec: `BlockHeightMap.rollback(fork_height)`
drops all entries strictly above `fork_height`. -/
def HeightMap.rollback (m : HeightMap) (fork_height : Int) : HeightMap :=
  ⟨m.entries.filter (fun p => (p.1 : Int) ≤ fork_height)⟩

/-- The in-memory state owned by the `Blockchain` class
(`blockchain.py`): the `__block_records` cache, the
`__heights_in_cache` index, the `__height_map`, `_peak_height` and the
block store. -/
structure ChainState where
  blockRecords : List (Nat × BlockRecord)
  heightsInCache : List (Nat × List Hash)
  heightMap : HeightMap
  peakHeight : Option Nat
  store : Store
  deriving DecidableEq, Repr

/-- `Blockchain.contains_block`. -/
def ChainState.contains_block (st : ChainState) (h : Hash) : Bool :=
  dictContains st.blockRecords h

/-- `Blockchain.block_record` (raises `KeyError` when absent: `none`). -/
def ChainState.block_record (st : ChainState) (h : Hash) : Option BlockRecord :=
  dictGet st.blockRecords h

/-- `BlockchainInterface.try_block_record`. -/
def ChainState.try_block_record (st : ChainState) (h : Hash) : Option BlockRecord :=
  if st.contains_block h then st.block_record h else none

/-- `Blockchain.height_to_hash`. -/
def ChainState.height_to_hash (st : ChainState) (height : Nat) : Option Hash :=
  if st.heightMap.contains_height height then st.heightMap.get_hash height else none

/-- `Blockchain.height_to_block_record` (raises when the height or the
record is missing: `none`). -/
def ChainState.height_to_block_record (st : ChainState) (height : Nat) : Option BlockRecord :=
  match st.height_to_hash height with
  | none => none
  | some h => st.block_record h

/-- `Blockchain.get_peak`, with the outer `Option` separating an
exception (`none`: `_peak_height` is set but a lookup fails, which
raises in the source) from a genuinely absent peak (`some none`). -/
def ChainState.get_peak (st : ChainState) : Option (Option BlockRecord) :=
  match st.peakHeight with
  | none => some none
  | some h =>
    match st.height_to_block_record h with
    | none => none
    | some r => some (some r)

/-- `Blockchain.add_block_record`: insert into `__block_records` and
into the `__heights_in_cache` bucket of the record's height. -/
def ChainState.add_block_record (st : ChainState) (r : BlockRecord) : ChainState :=
  let bucket := (dictGet st.heightsInCache r.height).getD []
  let bucket := if bucket.contains r.header_hash then bucket else bucket ++ [r.header_hash]
  { st with
    blockRecords := dictSet st.blockRecords r.header_hash r,
    heightsInCache := dictSet st.heightsInCache r.height bucket }

/-- `Blockchain.remove_block_record`: delete from `__block_records`
and from the height bucket. -/
def ChainState.remove_block_record (st : ChainState) (h : Hash) : ChainState :=
  match dictGet st.blockRecords h with
  | none => st
  | some r =>
    let bucket := ((dictGet st.heightsInCache r.height).getD []).filter (· ≠ h)
    { st with
      blockRecords := dictDel st.blockRecords h,
      heightsInCache := dictSet st.heightsInCache r.height bucket }

/-! ## blockchain.py: receive_block and _reconsider_peak -/

/-- `PreValidationResult` from `multiprocess_validation.py` (the error
is carried as an `Err` rather than its `uint16` code). -/
structure PreValidationResult where
  error : Option Err
  required_iters : Option Nat
  deriving DecidableEq, Repr

/-- `StateChangeSummary` from `blockchain.py`. -/
structure StateChangeSummary where
  peak : BlockRecord
  fork_height : Nat
  deriving DecidableEq, Repr

/-- The environment of one `receive_block` call: the execution-client
behavior, and `find_fork_point_in_chain`
(`corpochain/consensus/find_fork_point.py`, outside the core) modelled
from the spec as a function of the two records that returns the fork
height, or `-1` when the chains share no block. -/
structure ReceiveEnv where
  exec : ExecEnv
  findForkPoint : BlockRecord → BlockRecord → Int

/-- The backtracking loop of `_reconsider_peak` (`blockchain.py`
lines 328–338): walk from the new record down to the fork point,
collecting `(FullBlock, BlockRecord)` pairs from the store; stops when
`curr` equals the canonical hash at `fork_height` (never, if
`fork_height < 0`) or at a block of height 0.  A store miss (a failed
`assert` in the source) or fuel exhaustion is `none`. -/
def collectBlocksToAdd (st : ChainState) (fork_height : Int) :
    Nat → Hash → List (FullBlockM × BlockRecord) →
    Option (List (FullBlockM × BlockRecord))
  | 0, _, _ => none
  | fuel + 1, curr, acc =>
    if 0 ≤ fork_height ∧ st.height_to_hash fork_height.toNat = some curr then
      some acc
    else
      match st.store.get_full_block curr, st.store.get_block_record curr with
      | some fb, some rec =>
        let acc := acc ++ [(fb, rec)]
        if fb.height = 0 then some acc
        else collectBlocksToAdd st fork_height fuel rec.prev_hash acc
      | _, _ => none

/-- `Blockchain._reconsider_peak`.  Takes the state after
`add_full_block`; returns the records to add, the optional
`StateChangeSummary` and the updated store (`none` = exception). -/
def reconsider_peak (st : ChainState) (env : ReceiveEnv) (block_record : BlockRecord)
    (genesis : Bool) (fork_point_with_peak : Option Nat) :
    Option (List BlockRecord × Option StateChangeSummary × Store) :=
  match st.get_peak with
  | none => none
  | some peak? =>
    if genesis then
      match peak? with
      | none =>
        match st.store.get_full_block block_record.header_hash with
        | none => none
        | some _ =>
          let store := st.store.set_in_chain [block_record.header_hash]
          let store := store.set_peak block_record.header_hash
          some ([block_record], some ⟨block_record, 0⟩, store)
      | some _ => some ([], none, st.store)
    else
      match peak? with
      | none => none
      | some peak =>
        if block_record.weight ≤ peak.weight then
          some ([], none, st.store)
        else
          let fork_height : Int :=
            if block_record.prev_hash = peak.header_hash then (peak.height : Int)
            else
              match fork_point_with_peak with
              | some h => (h : Int)
              | none => env.findForkPoint block_record peak
          match collectBlocksToAdd st fork_height (block_record.height + 1)
              block_record.header_hash [] with
          | none => none
          | some blocks_to_add =>
            let records_to_add := (blocks_to_add.reverse).map (·.2)
            let store := st.store.rollback fork_height
            let store := store.set_in_chain (records_to_add.map (·.header_hash))
            let store := store.set_peak block_record.header_hash
            some (records_to_add, some ⟨block_record, fork_height.toNat⟩, store)

/-- The `height == parent.height + 1` check of `receive_block`: the
parent's height plus one (`0` when the parent is missing, a case the
preceding check makes unreachable). -/
def prevHeightPlusOne (st : ChainState) (b : FullBlockM) : Nat :=
  match st.block_record b.prev_header_hash with
  | some r => r.height + 1
  | none => 0

/-- The in-memory updates after `_reconsider_peak` returns
(`blockchain.py` lines 251–276), applied to the state as it stands
after `add_full_block`: install the updated store, `add_block_record`
the new record; when a `StateChangeSummary` was produced, roll the
height map back to the fork height, apply `update_height` for each
applied record, and move `_peak_height` to the new record's height. -/
def postInsertState (st : ChainState) (b : FullBlockM) (records : List BlockRecord)
    (summary : Option StateChangeSummary) (store2 : Store) : ChainState :=
  let st2 : ChainState := { st with store := store2 }
  let st3 := st2.add_block_record b.record
  match summary with
  | none => st3
  | some scs =>
    let hm := st3.heightMap.rollback (scs.fork_height : Int)
    let hm := records.foldl
      (fun m r => m.update_height r.height r.header_hash r.sub_epoch_summary_included) hm
    { st3 with heightMap := hm, peakHeight := some b.record.height }

/-- The insertion path of `receive_block` (`blockchain.py`
lines 241–281): persist the block, reconsider the peak, update the
cache, the height map and `_peak_height`, and return `NEW_PEAK` or
`ADDED_AS_ORPHAN`. -/
def receive_block_insert (st : ChainState) (env : ReceiveEnv) (b : FullBlockM)
    (fork_point_with_peak : Option Nat) :
    Option ((ReceiveBlockResult × Option Err × Option StateChangeSummary) × ChainState) :=
  match reconsider_peak
      { st with store := st.store.add_full_block b.header_hash b b.record }
      env b.record (b.height = 0) fork_point_with_peak with
  | none => none
  | some (records, some scs, store2) =>
    some ((ReceiveBlockResult.NEW_PEAK, none, some scs),
      postInsertState { st with store := st.store.add_full_block b.header_hash b b.record }
        b records (some scs) store2)
  | some (records, none, store2) =>
    some ((ReceiveBlockResult.ADDED_AS_ORPHAN, none, none),
      postInsertState { st with store := st.store.add_full_block b.header_hash b b.record }
        b records none store2)

/-- `Blockchain.receive_block`.  Returns the
`(result, error?, summary?)` triple together with the post-state;
`none` models an exception escaping the call. -/
def receive_block (st : ChainState) (env : ReceiveEnv) (b : FullBlockM)
    (pre_validation_result : PreValidationResult) (fork_point_with_peak : Option Nat) :
    Option ((ReceiveBlockResult × Option Err × Option StateChangeSummary) × ChainState) :=
  if st.contains_block b.header_hash then
    some ((ReceiveBlockResult.ALREADY_HAVE_BLOCK, none, none), st)
  else if ¬st.contains_block b.prev_header_hash ∧ ¬(b.height = 0) then
    some ((ReceiveBlockResult.DISCONNECTED_BLOCK, some Err.INVALID_PREV_BLOCK_HASH, none), st)
  else if ¬(b.height = 0) ∧ prevHeightPlusOne st b ≠ b.height then
    some ((ReceiveBlockResult.INVALID_BLOCK, some Err.INVALID_HEIGHT, none), st)
  else
    match pre_validation_result.error with
    | some e => some ((ReceiveBlockResult.INVALID_BLOCK, some e, none), st)
    | none =>
      match pre_validation_result.required_iters with
      | none => none
      | some _ =>
        match (validate_block_body true b.execution_payload.isSome env.exec).1 with
        | some error_code =>
          some ((ReceiveBlockResult.INVALID_BLOCK, some error_code, none), st)
        | none => receive_block_insert st env b fork_point_with_peak

/-! ## blockchain.py: cache garbage collection -/

/-- The body of `Blockchain.clean_block_record`'s `while` loop
(`blockchain.py` lines 579–588), descending from `height`: as long as
`__heights_in_cache` has a bucket at the current height, delete every
hash of the bucket from `__block_records`, delete the bucket, and step
down; stop at the first height without a bucket or after height 0. -/
def cleanLoop (height : Nat) (st : ChainState) : ChainState :=
  match dictGet st.heightsInCache height with
  | none => st
  | some blocks_to_remove =>
    let st' : ChainState :=
      { st with
        blockRecords :=
          blocks_to_remove.foldl (fun l h => dictDel l h) st.blockRecords,
        heightsInCache := dictDel st.heightsInCache height }
    if height = 0 then st' else cleanLoop (height - 1) st'
termination_by height
decreasing_by omega

/-- `Blockchain.clean_block_record(height)`: no-op for a negative
argument, otherwise the descending deletion loop. -/
def clean_block_record (st : ChainState) (height : Int) : ChainState :=
  if height < 0 then st else cleanLoop height.toNat st

/-- `Blockchain.clean_block_records()`: no-op while the cache holds
fewer than `BLOCKS_CACHE_SIZE` records or `peak − BLOCKS_CACHE_SIZE`
is negative; otherwise clean from that cutoff (the source asserts
`_peak_height is not None`; the `none` case keeps the state, modelling
that the assertion stops the mutation). -/
def clean_block_records (st : ChainState) (constants : ConsensusConstants) : ChainState :=
  if st.blockRecords.length < constants.BLOCKS_CACHE_SIZE then st
  else
    match st.peakHeight with
    | none => st
    | some peak =>
      if (peak : Int) - constants.BLOCKS_CACHE_SIZE < 0 then st
      else clean_block_record st ((peak : Int) - constants.BLOCKS_CACHE_SIZE)

/-! ## blockchain.py: get_recent_reward_challenges -/

/-- The inner `for rc in reversed(curr.finished_reward_slot_hashes)`
loop of `get_recent_reward_challenges` (`blockchain.py` lines 437–441):
append `(rc, sub_slot_total_iters)` pairs, decreasing the iteration
count by `sub_slot_iters` each time, and break as soon as
`sub_slot_total_iters < sub_slot_iters`. -/
def rewardSlotLoop (sub_slot_iters : Nat) :
    List Hash → Nat → List (Hash × Nat) → List (Hash × Nat) × Nat
  | [], sst, acc => (acc, sst)
  | rc :: rest, sst, acc =>
    if sst < sub_slot_iters then (acc, sst)
    else rewardSlotLoop sub_slot_iters rest (sst - sub_slot_iters) (acc ++ [(rc, sst)])

/-- The outer `while` loop of `get_recent_reward_challenges`
(`blockchain.py` lines 430–442), carrying the accumulator in source
(reverse-chronological) order; `maxLen = 2 * MAX_SUB_SLOT_BLOCKS`.
`peakHash` identifies the peak record for the `curr != peak`
comparison (records are compared by `header_hash`).  Fuel bounds the
walk; it runs out only on a chain longer than the fuel. -/
def recentRcLoop (st : ChainState) (maxLen : Nat) (peakHash : Hash) :
    Nat → Option BlockRecord → List (Hash × Nat) → List (Hash × Nat)
  | 0, _, acc => acc
  | _, none, acc => acc
  | fuel + 1, some curr, acc =>
    if maxLen ≤ acc.length then acc
    else
      let acc :=
        if curr.header_hash ≠ peakHash then
          acc ++ [(curr.reward_infusion_new_challenge, curr.total_iters)]
        else acc
      let acc :=
        if curr.first_in_sub_slot then
          (rewardSlotLoop curr.sub_slot_iters
            ((curr.finished_reward_slot_hashes.getD []).reverse)
            curr.ip_sub_slot_total_iters acc).1
        else acc
      recentRcLoop st maxLen peakHash fuel (st.try_block_record curr.prev_hash) acc

/-- `Blockchain.get_recent_reward_challenges()`.  `fuel` bounds the
backward walk (any fuel larger than the chain length is enough). -/
def get_recent_reward_challenges (st : ChainState) (constants : ConsensusConstants)
    (fuel : Nat) : Option (List (Hash × Nat)) :=
  match st.get_peak with
  | none => none
  | some none => some []
  | some (some peak) =>
    some (recentRcLoop st (2 * constants.MAX_SUB_SLOT_BLOCKS) peak.header_hash
      fuel (some peak) []).reverse

/-! ## multiprocess_validation.py: pre_validate_blocks_multiprocessing -/

/-- One block as seen by the mutation-relevant control flow of
`pre_validate_blocks_multiprocessing`, bundling the outcomes of the
pure collaborator functions the spec places outside the core:
`qualityOk` is whether `verify_and_get_quality_string` returned a
quality string, `blockRec` is the result of `block_to_block_record`
(`none` = the `ValueError` the source catches), and `sesMatches` is
the `sub_epoch_summary_included.get_hash() == next_ses.get_hash()`
comparison against the weight-proof summaries. -/
structure PreValBlock where
  header_hash : Hash
  prev_header_hash : Hash
  height : Nat
  qualityOk : Bool
  blockRec : Option BlockRecord
  sesMatches : Bool
  deriving Repr

/-- The outcome of `pre_validate_blocks_multiprocessing` as far as the
claims need it: one of the three single-element error returns, or the
dispatch to the worker pool. -/
inductive PreValOutcome where
  | errorPrevHash
  | errorPospace
  | errorSubEpochSummary
  | dispatched
  deriving DecidableEq, Repr

/-- A read-write view of the caller's block records, as mutated by the
pipeline (`contains_block`, `block_record`, `add_block_record`,
`remove_block_record` on the `BlockchainInterface`).  Only
`__block_records` is touched by the pipeline's additions and removals
of tentative records, so the view is that dictionary. -/
abbrev RecordsView := List (Nat × BlockRecord)

/-- The cleanup run on the `INVALID_POSPACE` path
(`multiprocess_validation.py` lines 177–179) and after the main loop
(lines 220–223): for each input block, if its record was not present
before the call, remove it from the view (the post-loop cleanup omits
the `contains_block` test; on the error path removal is conditional on
presence). -/
def removeStep (checkContains : Bool) (v : RecordsView) (p : PreValBlock × Bool) :
    RecordsView :=
  if ¬p.2 ∧ (¬checkContains ∨ dictContains v p.1.header_hash) then
    dictDel v p.1.header_hash
  else v

def removeTentative (view : RecordsView) (blocks : List PreValBlock)
    (was_present : List Bool) (checkContains : Bool) : RecordsView :=
  (blocks.zip was_present).foldl (removeStep checkContains) view

/-- The per-block loop of `pre_validate_blocks_multiprocessing`
(`multiprocess_validation.py` lines 157–217), restricted to its effect
on the block-records view: on a failed quality string, remove the
tentative records and return `INVALID_POSPACE`; on a
`block_to_block_record` `ValueError` or a weight-proof sub-epoch
summary mismatch, return `INVALID_SUB_EPOCH_SUMMARY` with the view as
it stands; otherwise add the derived record to the view when its hash
is not already present, and continue. -/
def preValLoop (allBlocks : List PreValBlock) (was_present : List Bool)
    (wpSummariesGiven : Bool) :
    List PreValBlock → RecordsView → PreValOutcome × RecordsView
  | [], view => (PreValOutcome.dispatched, removeTentative view allBlocks was_present false)
  | b :: rest, view =>
    if ¬b.qualityOk then
      (PreValOutcome.errorPospace, removeTentative view allBlocks was_present true)
    else
      match b.blockRec with
      | none => (PreValOutcome.errorSubEpochSummary, view)
      | some block_rec =>
        if block_rec.sub_epoch_summary_included.isSome ∧ wpSummariesGiven ∧ ¬b.sesMatches then
          (PreValOutcome.errorSubEpochSummary, view)
        else
          let view :=
            if ¬dictContains view block_rec.header_hash then
              dictSet view block_rec.header_hash block_rec
            else view
          preValLoop allBlocks was_present wpSummariesGiven rest view

/-- `pre_validate_blocks_multiprocessing`, restricted to its outcome
kind and its effect on the caller's block-records view.  The
read-only recent-blocks walk of lines 126–151 touches only local
dictionaries and is omitted; the worker dispatch of lines 225–273
performs no further view mutation and is collapsed into
`PreValOutcome.dispatched`. -/
def pre_validate_blocks_multiprocessing (view : RecordsView)
    (blocks : List PreValBlock) (wpSummariesGiven : Bool) :
    PreValOutcome × RecordsView :=
  match blocks with
  | [] => (PreValOutcome.dispatched, view)
  | first :: _ =>
    if first.height > 0 ∧ ¬dictContains view first.prev_header_hash then
      (PreValOutcome.errorPrevHash, view)
    else
      let was_present := blocks.map (fun b => dictContains view b.header_hash)
      preValLoop blocks was_present wpSummariesGiven blocks view

/-! ## Theorems -/

/-- C4: for every height `h`, the block reward in base-subunits equals
`2×10⁹` when `h < 3Y`, `1×10⁹` when `3Y ≤ h < 6Y`, `0.5×10⁹` when
`6Y ≤ h < 9Y`, `0.25×10⁹` when `9Y ≤ h < 12Y`, `0.125×10⁹` when
`12Y ≤ h < 15Y`, and `0` when `h ≥ 15Y`, where `Y = 4608 × 2 × 365`;
in particular at `h = 3Y − 1` the reward is exactly `2×10⁹` and at
`h = 3Y` it is exactly `1×10⁹`. -/
theorem calculate_block_reward_schedule :
    (∀ h, h < 3 * (4608 * 2 * 365) → _calculate_block_reward h = 2000000000)
    ∧ (∀ h, 3 * (4608 * 2 * 365) ≤ h → h < 6 * (4608 * 2 * 365) →
        _calculate_block_reward h = 1000000000)
    ∧ (∀ h, 6 * (4608 * 2 * 365) ≤ h → h < 9 * (4608 * 2 * 365) →
        _calculate_block_reward h = 500000000)
    ∧ (∀ h, 9 * (4608 * 2 * 365) ≤ h → h < 12 * (4608 * 2 * 365) →
        _calculate_block_reward h = 250000000)
    ∧ (∀ h, 12 * (4608 * 2 * 365) ≤ h → h < 15 * (4608 * 2 * 365) →
        _calculate_block_reward h = 125000000)
    ∧ (∀ h, 15 * (4608 * 2 * 365) ≤ h → _calculate_block_reward h = 0)
    ∧ _calculate_block_reward (3 * (4608 * 2 * 365) - 1) = 2000000000
    ∧ _calculate_block_reward (3 * (4608 * 2 * 365)) = 1000000000 := by
  refine ⟨?_, ?_, ?_, ?_, ?_, ?_, ?_, ?_⟩
  · intro h h1
    unfold _calculate_block_reward _blocks_per_year _corpochain_to_gwei
    split_ifs <;> omega
  · intro h h1 h2
    unfold _calculate_block_reward _blocks_per_year _corpochain_to_gwei
    split_ifs <;> omega
  · intro h h1 h2
    unfold _calculate_block_reward _blocks_per_year _corpochain_to_gwei
    split_ifs <;> omega
  · intro h h1 h2
    unfold _calculate_block_reward _blocks_per_year _corpochain_to_gwei
    split_ifs <;> omega
  · intro h h1 h2
    unfold _calculate_block_reward _blocks_per_year _corpochain_to_gwei
    split_ifs <;> omega
  · intro h h1
    unfold _calculate_block_reward _blocks_per_year _corpochain_to_gwei
    split_ifs <;> omega
  · decide
  · decide

/-- Witness for C4: each tier of the schedule evaluated on one
concrete height. -/
theorem calculate_block_reward_schedule_witness :
    _calculate_block_reward 0 = 2000000000
    ∧ _calculate_block_reward (3 * (4608 * 2 * 365)) = 1000000000
    ∧ _calculate_block_reward (6 * (4608 * 2 * 365)) = 500000000
    ∧ _calculate_block_reward (9 * (4608 * 2 * 365)) = 250000000
    ∧ _calculate_block_reward (12 * (4608 * 2 * 365)) = 125000000
    ∧ _calculate_block_reward (15 * (4608 * 2 * 365)) = 0 :=
  ⟨calculate_block_reward_schedule.1 0 (by decide),
   calculate_block_reward_schedule.2.1 _ (by decide) (by decide),
   calculate_block_reward_schedule.2.2.1 _ (by decide) (by decide),
   calculate_block_reward_schedule.2.2.2.1 _ (by decide) (by decide),
   calculate_block_reward_schedule.2.2.2.2.1 _ (by decide) (by decide),
   calculate_block_reward_schedule.2.2.2.2.2.1 _ (by decide)⟩

/-- C10: for every block whose `execution_payload` is `None`,
`validate_block_body` accepts (returns `None`) without invoking
`new_payload` or `forkchoice_update` on the execution client, so a
payload-less block can never be rejected with `PAYLOAD_INVALIDATED`,
`PAYLOAD_NOT_VALIDATED`, or `UNKNOWN`. -/
theorem validate_block_body_no_payload (isFullBlock : Bool) (env : ExecEnv) :
    validate_block_body isFullBlock false env = (none, []) := by
  simp [validate_block_body]

/-- The five Engine-API status strings the source recognizes. -/
def recognizedStatuses : List String :=
  ["VALID", "INVALID", "INVALID_BLOCK_HASH", "SYNCING", "ACCEPTED"]

/-- C2: the body-validation policy table.  For an `UnfinishedBlock`
with an execution payload: `new_payload` `INVALID`/`INVALID_BLOCK_HASH`
yields `PAYLOAD_INVALIDATED`, `SYNCING`/`ACCEPTED` yields
`PAYLOAD_NOT_VALIDATED`, `VALID` yields acceptance, any other status
yields `UNKNOWN`.  For a `FullBlock`: `new_payload`
`INVALID`/`INVALID_BLOCK_HASH` yields `PAYLOAD_INVALIDATED`, an
unrecognized status yields `UNKNOWN`, and otherwise
`forkchoice_update` is consulted: `INVALID`/`INVALID_BLOCK_HASH`
yields `PAYLOAD_INVALIDATED`, `SYNCING`/`ACCEPTED` yields acceptance
iff `optimistic_import` is enabled and `PAYLOAD_NOT_VALIDATED`
otherwise, `VALID` yields acceptance, any other status yields
`UNKNOWN`. -/
theorem validate_block_body_policy (env : ExecEnv) :
    ((env.newPayloadStatus = "INVALID" ∨ env.newPayloadStatus = "INVALID_BLOCK_HASH") →
        (validate_block_body false true env).1 = some Err.PAYLOAD_INVALIDATED)
    ∧ ((env.newPayloadStatus = "SYNCING" ∨ env.newPayloadStatus = "ACCEPTED") →
        (validate_block_body false true env).1 = some Err.PAYLOAD_NOT_VALIDATED)
    ∧ (env.newPayloadStatus = "VALID" → (validate_block_body false true env).1 = none)
    ∧ (env.newPayloadStatus ∉ recognizedStatuses →
        (validate_block_body false true env).1 = some Err.UNKNOWN)
    ∧ ((env.newPayloadStatus = "INVALID" ∨ env.newPayloadStatus = "INVALID_BLOCK_HASH") →
        (validate_block_body true true env).1 = some Err.PAYLOAD_INVALIDATED)
    ∧ (env.newPayloadStatus ∉ recognizedStatuses →
        (validate_block_body true true env).1 = some Err.UNKNOWN)
    ∧ ((env.newPayloadStatus = "VALID" ∨ env.newPayloadStatus = "SYNCING"
          ∨ env.newPayloadStatus = "ACCEPTED") →
        ((env.forkchoiceStatus = "INVALID" ∨ env.forkchoiceStatus = "INVALID_BLOCK_HASH") →
            (validate_block_body true true env).1 = some Err.PAYLOAD_INVALIDATED)
        ∧ ((env.forkchoiceStatus = "SYNCING" ∨ env.forkchoiceStatus = "ACCEPTED") →
            (validate_block_body true true env).1 =
              if env.optimistic_import then none else some Err.PAYLOAD_NOT_VALIDATED)
        ∧ (env.forkchoiceStatus = "VALID" → (validate_block_body true true env).1 = none)
        ∧ (env.forkchoiceStatus ∉ recognizedStatuses →
            (validate_block_body true true env).1 = some Err.UNKNOWN)) := by
  obtain ⟨np, fc, opt⟩ := env
  simp only [recognizedStatuses, List.mem_cons, List.mem_singleton]
  refine ⟨?_, ?_, ?_, ?_, ?_, ?_, ?_⟩
  · rintro (rfl | rfl) <;> simp [validate_block_body]
  · rintro (rfl | rfl) <;> simp [validate_block_body]
  · rintro rfl; simp [validate_block_body]
  · intro h
    push_neg at h
    obtain ⟨h1, h2, h3, h4, h5⟩ := h
    simp [validate_block_body, h1, h2, h3, h4, h5]
  · rintro (rfl | rfl) <;> simp [validate_block_body]
  · intro h
    push_neg at h
    obtain ⟨h1, h2, h3, h4, h5⟩ := h
    simp [validate_block_body, h1, h2, h3, h4, h5]
  · intro hnp
    refine ⟨?_, ?_, ?_, ?_⟩
    · rintro (rfl | rfl) <;>
        rcases hnp with rfl | rfl | rfl <;> simp [validate_block_body]
    · rintro (rfl | rfl) <;>
        rcases hnp with rfl | rfl | rfl <;> rcases opt <;> simp [validate_block_body]
    · rintro rfl
      rcases hnp with rfl | rfl | rfl <;> simp [validate_block_body]
    · intro h
      push_neg at h
      obtain ⟨h1, h2, h3, h4, h5⟩ := h
      rcases hnp with rfl | rfl | rfl <;> simp [validate_block_body, h1, h2, h3, h4, h5]

/-- Witness for C2: the table evaluated on concrete statuses, with
`optimistic_import` disabled. -/
theorem validate_block_body_policy_witness :
    (validate_block_body false true ⟨"INVALID", "x", false⟩).1 = some Err.PAYLOAD_INVALIDATED
    ∧ (validate_block_body false true ⟨"SYNCING", "x", false⟩).1 = some Err.PAYLOAD_NOT_VALIDATED
    ∧ (validate_block_body false true ⟨"VALID", "x", false⟩).1 = none
    ∧ (validate_block_body false true ⟨"bogus", "x", false⟩).1 = some Err.UNKNOWN
    ∧ (validate_block_body true true ⟨"INVALID_BLOCK_HASH", "x", false⟩).1 =
        some Err.PAYLOAD_INVALIDATED
    ∧ (validate_block_body true true ⟨"bogus", "x", false⟩).1 = some Err.UNKNOWN
    ∧ (validate_block_body true true ⟨"VALID", "INVALID", false⟩).1 =
        some Err.PAYLOAD_INVALIDATED
    ∧ (validate_block_body true true ⟨"ACCEPTED", "SYNCING", false⟩).1 =
        (if false then none else some Err.PAYLOAD_NOT_VALIDATED)
    ∧ (validate_block_body true true ⟨"VALID", "VALID", false⟩).1 = none
    ∧ (validate_block_body true true ⟨"SYNCING", "bogus", false⟩).1 = some Err.UNKNOWN :=
  ⟨(validate_block_body_policy ⟨"INVALID", "x", false⟩).1 (Or.inl rfl),
   (validate_block_body_policy ⟨"SYNCING", "x", false⟩).2.1 (Or.inl rfl),
   (validate_block_body_policy ⟨"VALID", "x", false⟩).2.2.1 rfl,
   (validate_block_body_policy ⟨"bogus", "x", false⟩).2.2.2.1 (by decide),
   (validate_block_body_policy ⟨"INVALID_BLOCK_HASH", "x", false⟩).2.2.2.2.1 (Or.inr rfl),
   (validate_block_body_policy ⟨"bogus", "x", false⟩).2.2.2.2.2.1 (by decide),
   ((validate_block_body_policy ⟨"VALID", "INVALID", false⟩).2.2.2.2.2.2
      (Or.inl rfl)).1 (Or.inl rfl),
   ((validate_block_body_policy ⟨"ACCEPTED", "SYNCING", false⟩).2.2.2.2.2.2
      (Or.inr (Or.inr rfl))).2.1 (Or.inl rfl),
   ((validate_block_body_policy ⟨"VALID", "VALID", false⟩).2.2.2.2.2.2
      (Or.inl rfl)).2.2.1 rfl,
   ((validate_block_body_policy ⟨"SYNCING", "bogus", false⟩).2.2.2.2.2.2
      (Or.inr (Or.inl rfl))).2.2.2 (by decide)⟩

/-- C1: the pre-insertion checks of `receive_block` run in order: a
block whose hash is cached returns `(ALREADY_HAVE_BLOCK, no error)`;
else a non-genesis block whose parent is not cached returns
`(DISCONNECTED_BLOCK, INVALID_PREV_BLOCK_HASH)`; else a non-genesis
block whose height is not `parent.height + 1` returns
`(INVALID_BLOCK, INVALID_HEIGHT)`; else if the pre-validation result
carries an error the call returns `(INVALID_BLOCK, that error)`.  In
all four cases no `StateChangeSummary` is returned and the state
(store, cache, height map, peak) is unchanged. -/
theorem receive_block_prechecks (st : ChainState) (env : ReceiveEnv) (b : FullBlockM)
    (pre : PreValidationResult) (hint : Option Nat) :
    (st.contains_block b.header_hash = true →
        receive_block st env b pre hint =
          some ((ReceiveBlockResult.ALREADY_HAVE_BLOCK, none, none), st))
    ∧ (st.contains_block b.header_hash = false → b.height ≠ 0 →
        st.contains_block b.prev_header_hash = false →
        receive_block st env b pre hint =
          some ((ReceiveBlockResult.DISCONNECTED_BLOCK,
                 some Err.INVALID_PREV_BLOCK_HASH, none), st))
    ∧ (st.contains_block b.header_hash = false → b.height ≠ 0 →
        st.contains_block b.prev_header_hash = true →
        prevHeightPlusOne st b ≠ b.height →
        receive_block st env b pre hint =
          some ((ReceiveBlockResult.INVALID_BLOCK, some Err.INVALID_HEIGHT, none), st))
    ∧ (∀ e, st.contains_block b.header_hash = false →
        (b.height = 0 ∨
          (st.contains_block b.prev_header_hash = true ∧ prevHeightPlusOne st b = b.height)) →
        pre.error = some e →
        receive_block st env b pre hint =
          some ((ReceiveBlockResult.INVALID_BLOCK, some e, none), st)) := by
  refine ⟨?_, ?_, ?_, ?_⟩
  · intro h1
    simp [receive_block, h1]
  · intro h1 h2 h3
    simp [receive_block, h1, h2, h3]
  · intro h1 h2 h3 h4
    simp [receive_block, h1, h2, h3, h4]
  · intro e h1 h2 h3
    rcases h2 with hgen | ⟨hprev, hht⟩
    · simp [receive_block, h1, hgen, h3]
    · simp [receive_block, h1, hprev, hht, h3]

/-- Looking up the key just set returns the value just set. -/
theorem dictGet_dictSet_self {α : Type} (l : List (Nat × α)) (k : Nat) (v : α) :
    dictGet (dictSet l k v) k = some v := by
  induction l with
  | nil => simp [dictGet, dictSet]
  | cons p rest ih =>
    obtain ⟨k', v'⟩ := p
    by_cases h : k' = k
    · simp [dictGet, dictSet, h]
    · simp [dictGet, dictSet, h, ih]

/-- A state differing only in the store has the same `get_peak`. -/
theorem get_peak_set_store (st : ChainState) (s : Store) :
    ChainState.get_peak { st with store := s } = st.get_peak := rfl

/-- The record cache after the in-memory post-insert updates is the
input cache with the new record set. -/
theorem postInsertState_blockRecords (st : ChainState) (b : FullBlockM)
    (records : List BlockRecord) (summary : Option StateChangeSummary) (store2 : Store) :
    (postInsertState st b records summary store2).blockRecords =
      dictSet st.blockRecords b.record.header_hash b.record := by
  cases summary <;> rfl

/-- A block fixture: a record with the given hash, parent hash, height
and weight, every other field inert. -/
def testRecord (hh prev height weight : Nat) : BlockRecord :=
  ⟨hh, prev, height, weight, 0, false, false, 0, 0, none, none, none, none, 0, 0⟩

/-- A one-block chain fixture: the record `testRecord 1 900 0 10` is
cached, canonical at height 0, and is the peak. -/
def testState : ChainState :=
  { blockRecords := [(1, testRecord 1 900 0 10)],
    heightsInCache := [(0, [1])],
    heightMap := ⟨[(0, (1, none))]⟩,
    peakHeight := some 0,
    store := ⟨[(1, (⟨testRecord 1 900 0 10, none⟩, testRecord 1 900 0 10))], [1], some 1, []⟩ }

/-- A call environment fixture: the execution client answers `VALID`
twice; `find_fork_point_in_chain` is never consulted on the embedded
paths that use the fixture. -/
def testEnv : ReceiveEnv := ⟨⟨"VALID", "VALID", true⟩, fun _ _ => -1⟩

/-- Witness for C1: the four pre-insertion outcomes on the one-block
fixture chain — a duplicate of the cached block, a block with an
unknown parent, a child of the cached block with a wrong height, and a
well-connected child carrying a pre-validation error. -/
theorem receive_block_prechecks_witness :
    receive_block testState testEnv ⟨testRecord 1 900 0 10, none⟩ ⟨none, some 5⟩ none =
      some ((ReceiveBlockResult.ALREADY_HAVE_BLOCK, none, none), testState)
    ∧ receive_block testState testEnv ⟨testRecord 2 99 5 20, none⟩ ⟨none, some 5⟩ none =
      some ((ReceiveBlockResult.DISCONNECTED_BLOCK,
             some Err.INVALID_PREV_BLOCK_HASH, none), testState)
    ∧ receive_block testState testEnv ⟨testRecord 3 1 5 20, none⟩ ⟨none, some 5⟩ none =
      some ((ReceiveBlockResult.INVALID_BLOCK, some Err.INVALID_HEIGHT, none), testState)
    ∧ receive_block testState testEnv ⟨testRecord 4 1 1 20, none⟩ ⟨some (Err.OTHER 7), none⟩
        none =
      some ((ReceiveBlockResult.INVALID_BLOCK, some (Err.OTHER 7), none), testState) :=
  ⟨(receive_block_prechecks testState testEnv ⟨testRecord 1 900 0 10, none⟩
      ⟨none, some 5⟩ none).1 (by decide),
   (receive_block_prechecks testState testEnv ⟨testRecord 2 99 5 20, none⟩
      ⟨none, some 5⟩ none).2.1 (by decide) (by decide) (by decide),
   (receive_block_prechecks testState testEnv ⟨testRecord 3 1 5 20, none⟩
      ⟨none, some 5⟩ none).2.2.1 (by decide) (by decide) (by decide) (by decide),
   (receive_block_prechecks testState testEnv ⟨testRecord 4 1 1 20, none⟩
      ⟨some (Err.OTHER 7), none⟩ none).2.2.2 (Err.OTHER 7) (by decide)
      (Or.inr (by decide)) (by decide)⟩

/-- C5: a non-genesis block that passes the pre-insertion and
body-validation checks and whose weight does not exceed the peak's is
returned as `(ADDED_AS_ORPHAN, no error, no StateChangeSummary)`, and
the peak pointer, the `peak_height` cursor, the in-chain markings and
the height map are all left unchanged: the block is only persisted
(`add_full_block`) and cached (`add_block_record`). -/
theorem receive_block_orphan (st : ChainState) (env : ReceiveEnv) (b : FullBlockM)
    (pre : PreValidationResult) (hint : Option Nat) (peak : BlockRecord) (ri : Nat)
    (hnc : st.contains_block b.header_hash = false)
    (hgen : b.height ≠ 0)
    (hprev : st.contains_block b.prev_header_hash = true)
    (hht : prevHeightPlusOne st b = b.height)
    (herr : pre.error = none)
    (hri : pre.required_iters = some ri)
    (hbody : (validate_block_body true b.execution_payload.isSome env.exec).1 = none)
    (hpeak : st.get_peak = some (some peak))
    (hw : b.record.weight ≤ peak.weight) :
    ∃ st', receive_block st env b pre hint =
        some ((ReceiveBlockResult.ADDED_AS_ORPHAN, none, none), st')
      ∧ st'.store.peak = st.store.peak
      ∧ st'.store.inChain = st.store.inChain
      ∧ st'.heightMap = st.heightMap
      ∧ st'.peakHeight = st.peakHeight
      ∧ st'.blockRecords = dictSet st.blockRecords b.header_hash b.record
      ∧ st'.store.blocks = dictSet st.store.blocks b.header_hash (b, b.record) := by
  refine ⟨ChainState.add_block_record
      { st with store := st.store.add_full_block b.header_hash b b.record } b.record, ?_⟩
  have hmain : receive_block st env b pre hint =
      receive_block_insert st env b hint := by
    simp [receive_block, hnc, hgen, hprev, hht, herr, hri, hbody]
  have hrp : reconsider_peak
      { st with store := st.store.add_full_block b.header_hash b b.record }
      env b.record (b.height = 0) hint =
      some ([], none, (st.store.add_full_block b.header_hash b b.record)) := by
    rw [reconsider_peak, get_peak_set_store, hpeak]
    simp [hgen, hw]
  rw [hmain, receive_block_insert, hrp]
  refine ⟨rfl, rfl, rfl, rfl, rfl, ?_, rfl⟩
  simp [ChainState.add_block_record, FullBlockM.header_hash, Store.add_full_block]

/-- A two-block chain fixture: genesis `testRecord 1 900 0 10` and its
child `testRecord 2 1 1 15`, the child being the peak. -/
def testState2 : ChainState :=
  { blockRecords := [(1, testRecord 1 900 0 10), (2, testRecord 2 1 1 15)],
    heightsInCache := [(0, [1]), (1, [2])],
    heightMap := ⟨[(0, (1, none)), (1, (2, none))]⟩,
    peakHeight := some 1,
    store := ⟨[(1, (⟨testRecord 1 900 0 10, none⟩, testRecord 1 900 0 10)),
               (2, (⟨testRecord 2 1 1 15, none⟩, testRecord 2 1 1 15))],
              [1, 2], some 2, []⟩ }

/-- Witness for C5: a sibling of the peak with equal weight on a
two-block fixture chain is stored as an orphan. -/
theorem receive_block_orphan_witness :
    ∃ st', receive_block testState2 testEnv ⟨testRecord 30 1 1 15, none⟩ ⟨none, some 5⟩ none =
        some ((ReceiveBlockResult.ADDED_AS_ORPHAN, none, none), st')
      ∧ st'.store.peak = testState2.store.peak
      ∧ st'.store.inChain = testState2.store.inChain
      ∧ st'.heightMap = testState2.heightMap
      ∧ st'.peakHeight = testState2.peakHeight
      ∧ st'.blockRecords =
          dictSet testState2.blockRecords 30 (testRecord 30 1 1 15)
      ∧ st'.store.blocks =
          dictSet testState2.store.blocks 30
            (⟨testRecord 30 1 1 15, none⟩, testRecord 30 1 1 15) :=
  receive_block_orphan testState2 testEnv ⟨testRecord 30 1 1 15, none⟩ ⟨none, some 5⟩ none
    (testRecord 2 1 1 15) 5 (by decide) (by decide) (by decide) (by decide) rfl rfl
    (by decide) (by decide) (by decide)

/-- C6: a block accepted as a new peak is reported
`ALREADY_HAVE_BLOCK` by a second `receive_block` call with the same
arguments, and the second call leaves the state (store, record cache,
height map, peak) exactly as the first call left it. -/
theorem receive_block_second_call (st : ChainState) (env : ReceiveEnv) (b : FullBlockM)
    (pre : PreValidationResult) (hint : Option Nat) (e : Option Err)
    (scs : Option StateChangeSummary) (st₁ : ChainState)
    (h : receive_block st env b pre hint =
      some ((ReceiveBlockResult.NEW_PEAK, e, scs), st₁)) :
    receive_block st₁ env b pre hint =
      some ((ReceiveBlockResult.ALREADY_HAVE_BLOCK, none, none), st₁) := by
  have hc : st₁.contains_block b.header_hash = true := by
    unfold receive_block at h
    split at h
    · simp at h
    · split at h
      · simp at h
      · split at h
        · simp at h
        · split at h
          · simp at h
          · split at h
            · simp at h
            · split at h
              · simp at h
              · unfold receive_block_insert at h
                split at h
                · simp at h
                · simp only [Option.some.injEq, Prod.mk.injEq] at h
                  obtain ⟨_, hst⟩ := h
                  subst hst
                  simp [ChainState.contains_block, dictContains,
                    postInsertState_blockRecords, FullBlockM.header_hash,
                    dictGet_dictSet_self]
                · simp at h
  simp [receive_block, hc]

/-- The fixture chain `testState2` after `testRecord 3 2 2 20` has
been accepted as the new peak. -/
def testState2Peak3 : ChainState :=
  { blockRecords := [(1, testRecord 1 900 0 10), (2, testRecord 2 1 1 15),
                     (3, testRecord 3 2 2 20)],
    heightsInCache := [(0, [1]), (1, [2]), (2, [3])],
    heightMap := ⟨[(0, (1, none)), (1, (2, none)), (2, (3, none))]⟩,
    peakHeight := some 2,
    store := ⟨[(1, (⟨testRecord 1 900 0 10, none⟩, testRecord 1 900 0 10)),
               (2, (⟨testRecord 2 1 1 15, none⟩, testRecord 2 1 1 15)),
               (3, (⟨testRecord 3 2 2 20, none⟩, testRecord 3 2 2 20))],
              [1, 2, 3], some 3, []⟩ }

/-- Witness for C6: inserting `testRecord 3 2 2 20` on the fixture
chain returns `NEW_PEAK` (checked by `decide` in the hypothesis), and
the repeated call returns `ALREADY_HAVE_BLOCK` without touching the
state. -/
theorem receive_block_second_call_witness :
    receive_block testState2Peak3 testEnv ⟨testRecord 3 2 2 20, none⟩ ⟨none, some 5⟩ none =
      some ((ReceiveBlockResult.ALREADY_HAVE_BLOCK, none, none), testState2Peak3) :=
  receive_block_second_call testState2 testEnv ⟨testRecord 3 2 2 20, none⟩ ⟨none, some 5⟩
    none none (some ⟨testRecord 3 2 2 20, 1⟩) testState2Peak3 (by decide)

/-- Spec-side description of the reward walk of C3: the records
visited are `prev` and its successive ancestors, stopping after the
record whose `prev_hash` equals `GENESIS_CHALLENGE` or immediately
upon reaching the next transaction block (which is not included). -/
def rewardAncestors (constants : ConsensusConstants) (blocks : Hash → Option BlockRecord) :
    Nat → BlockRecord → Option (List BlockRecord)
  | 0, _ => none
  | fuel + 1, curr =>
    if curr.prev_hash = constants.GENESIS_CHALLENGE then some [curr]
    else
      match blocks curr.prev_hash with
      | none => none
      | some parent =>
        if parent.is_transaction_block then some [curr]
        else (rewardAncestors constants blocks fuel parent).map (curr :: ·)

/-- Spec-side description of the reward entries of C3: one type-1
withdrawal `(index, coinbase, reward(height))` per walked record, with
consecutive indices from `start`. -/
def rewardWithdrawals (start : Nat) : List BlockRecord → List WithdrawalV1
  | [] => []
  | r :: rs =>
    ⟨start, 1, r.coinbase, _calculate_block_reward r.height⟩ :: rewardWithdrawals (start + 1) rs

/-- Spec-side description of the starting index of C3:
`prev.last_withdrawal_index + 1`, or `0` when it is `None`. -/
def firstWithdrawalIndex (r : BlockRecord) : Nat :=
  match r.last_withdrawal_index with
  | none => 0
  | some i => i + 1

/-- The source's reward loop produces exactly the spec-side entries
for the spec-side walk. -/
theorem withdrawalsLoop_eq_spec (constants : ConsensusConstants)
    (blocks : Hash → Option BlockRecord) (fuel : Nat) :
    ∀ (curr : BlockRecord) (idx : Nat),
      withdrawalsLoop constants blocks fuel curr idx =
        (rewardAncestors constants blocks fuel curr).map (rewardWithdrawals idx) := by
  induction fuel with
  | zero => intro curr idx; rfl
  | succ fuel ih =>
    intro curr idx
    unfold withdrawalsLoop rewardAncestors
    by_cases hg : curr.prev_hash = constants.GENESIS_CHALLENGE
    · simp [hg, rewardWithdrawals]
    · simp only [hg, if_false]
      cases hb : blocks curr.prev_hash with
      | none => simp
      | some parent =>
        by_cases ht : parent.is_transaction_block
        · simp [ht, rewardWithdrawals]
        · simp only [ht, if_false, ih parent (idx + 1)]
          cases rewardAncestors constants blocks fuel parent <;>
            simp [rewardWithdrawals]

/-- C3: for every previous transaction block whose backward walk
reaches a transaction-block or genesis ancestor (`rewardAncestors`
returns a list), `create_withdrawals` returns: the prefarm withdrawal
`(first index, type 0, PREFARM_ADDRESS, PREFARM_AMOUNT × 10⁹)` exactly
when `prev.height = 0`, followed by one type-1 withdrawal
`(index, coinbase, reward(height))` per walked record with
consecutive indices, the first index being
`prev.last_withdrawal_index + 1` (or `0` when `None`). -/
theorem create_withdrawals_spec (constants : ConsensusConstants)
    (blocks : Hash → Option BlockRecord) (prev : BlockRecord) (fuel : Nat)
    (l : List BlockRecord)
    (hwalk : rewardAncestors constants blocks fuel prev = some l) :
    create_withdrawals constants blocks prev fuel =
      some ((if prev.height = 0 then
              [⟨firstWithdrawalIndex prev, 0, constants.PREFARM_ADDRESS,
                constants.PREFARM_AMOUNT * 1000000000⟩]
             else []) ++
            rewardWithdrawals
              (firstWithdrawalIndex prev + (if prev.height = 0 then 1 else 0)) l) := by
  simp only [create_withdrawals]
  rw [withdrawalsLoop_eq_spec, hwalk]
  by_cases h0 : prev.height = 0 <;>
    simp [h0, firstWithdrawalIndex, _corpochain_to_gwei]

/-- Witness for C3: a concrete three-block chain — genesis
`testRecord 20 99 0 10` (with `GENESIS_CHALLENGE = 99`), its non-
transaction child `testRecord 21 20 1 15` and the transaction block
`testRecord 22 21 2 20` — walked once from the genesis transaction
block (prefarm plus its own reward) and once from the tip (two
rewards, stopping at genesis). -/
theorem create_withdrawals_spec_witness :
    create_withdrawals ⟨99, 77, 42, 4, 8⟩
        (fun h => if h = 20 then some (testRecord 20 99 0 10)
                  else if h = 21 then some (testRecord 21 20 1 15) else none)
        (testRecord 20 99 0 10) 3 =
      some ([⟨0, 0, 77, 42 * 1000000000⟩] ++
            rewardWithdrawals 1 [testRecord 20 99 0 10])
    ∧ create_withdrawals ⟨99, 77, 42, 4, 8⟩
        (fun h => if h = 20 then some (testRecord 20 99 0 10)
                  else if h = 21 then some (testRecord 21 20 1 15) else none)
        (testRecord 22 21 2 20) 3 =
      some ([] ++
            rewardWithdrawals 0 [testRecord 22 21 2 20, testRecord 21 20 1 15,
                                 testRecord 20 99 0 10]) :=
  ⟨create_withdrawals_spec ⟨99, 77, 42, 4, 8⟩ _ (testRecord 20 99 0 10) 3
      [testRecord 20 99 0 10] (by decide),
   create_withdrawals_spec ⟨99, 77, 42, 4, 8⟩ _ (testRecord 22 21 2 20) 3
      [testRecord 22 21 2 20, testRecord 21 20 1 15, testRecord 20 99 0 10] (by decide)⟩

/-! ### Cache-GC helper lemmas -/

/-- A key absent from a dict is matched by no entry. -/
theorem dictGet_eq_none_iff {α : Type} (l : List (Nat × α)) (k : Nat) :
    dictGet l k = none ↔ ∀ p ∈ l, p.1 ≠ k := by
  induction l with
  | nil => simp [dictGet]
  | cons p rest ih =>
    obtain ⟨k', v⟩ := p
    by_cases h : k' = k <;> simp [dictGet, h, ih]

/-- Lookup skips a prefix none of whose keys match. -/
theorem dictGet_append_right {α : Type} (A B : List (Nat × α)) (k : Nat)
    (h : ∀ p ∈ A, p.1 ≠ k) : dictGet (A ++ B) k = dictGet B k := by
  induction A with
  | nil => rfl
  | cons p rest ih =>
    have hp : p.1 ≠ k := h p (by simp)
    simp only [List.cons_append, dictGet, hp, if_false]
    exact ih (fun q hq => h q (by simp [hq]))

/-- Deleting a key no entry carries is the identity. -/
theorem dictDel_eq_self {α : Type} (l : List (Nat × α)) (k : Nat)
    (h : ∀ p ∈ l, p.1 ≠ k) : dictDel l k = l :=
  List.filter_eq_self.mpr (fun p hp => by simpa using h p hp)

/-- Deletion distributes over append. -/
theorem dictDel_append {α : Type} (A B : List (Nat × α)) (k : Nat) :
    dictDel (A ++ B) k = dictDel A k ++ dictDel B k :=
  List.filter_append A B

/-- Entries of an interval dict have keys in the interval. -/
theorem mem_intervalMap_key {α : Type} (lo n : Nat) (f : Nat → α) (p : Nat × α)
    (hp : p ∈ (List.range' lo n).map (fun i => (i, f i))) :
    lo ≤ p.1 ∧ p.1 < lo + n := by
  obtain ⟨i, hi, rfl⟩ := List.mem_map.mp hp
  exact List.mem_range'_1.mp hi

/-- One cached block per height for the GC scenarios: hash `i`,
height `i`. -/
def gcRecord (i : Nat) : BlockRecord := testRecord i 0 i 0

/-- A cache holding one record per height in `[lo, lo + count)` (hash
`i` at height `i`, bucket `[i]`) in front of a remainder state. -/
def gcCacheFrom (lo count : Nat) (rest : ChainState) : ChainState :=
  { rest with
    blockRecords := (List.range' lo count).map (fun i => (i, gcRecord i)) ++ rest.blockRecords,
    heightsInCache := (List.range' lo count).map (fun i => (i, [i])) ++ rest.heightsInCache }

/-- An otherwise-empty chain state with the given `_peak_height`. -/
def gcBase (peak : Option Nat) : ChainState := ⟨[], [], ⟨[]⟩, peak, ⟨[], [], none, []⟩⟩

theorem gcCacheFrom_zero (lo : Nat) (rest : ChainState) : gcCacheFrom lo 0 rest = rest := rfl

/-- Splitting an interval cache at an inner bound. -/
theorem gcCacheFrom_append (lo m n : Nat) (rest : ChainState) :
    gcCacheFrom lo (m + n) rest = gcCacheFrom lo m (gcCacheFrom (lo + m) n rest) := by
  have h := List.range'_append lo m n 1
  simp only [Nat.one_mul] at h
  simp only [gcCacheFrom, Nat.add_comm m n, ← h, List.map_append, List.append_assoc]

/-- One pass of `cleanLoop` over the top of a contiguous interval of
cached heights deletes that record and bucket and, unless the height
was 0, continues below. -/
theorem cleanLoop_gc_step (lo count : Nat) (rest : ChainState)
    (h1 : dictGet rest.heightsInCache (lo + count) = none)
    (h2 : dictGet rest.blockRecords (lo + count) = none) :
    cleanLoop (lo + count) (gcCacheFrom lo (count + 1) rest) =
      if lo + count = 0 then gcCacheFrom lo count rest
      else cleanLoop (lo + count - 1) (gcCacheFrom lo count rest) := by
  have hsplit : gcCacheFrom lo (count + 1) rest =
      gcCacheFrom lo count (gcCacheFrom (lo + count) 1 rest) :=
    gcCacheFrom_append lo count 1 rest
  have hAkeysH : ∀ p ∈ (List.range' lo count).map (fun i => (i, ([i] : List Hash))),
      p.1 ≠ lo + count := by
    intro p hp
    obtain ⟨ha, hb⟩ := mem_intervalMap_key lo count _ p hp
    exact Nat.ne_of_lt hb
  have hAkeysR : ∀ p ∈ (List.range' lo count).map (fun i => (i, gcRecord i)),
      p.1 ≠ lo + count := by
    intro p hp
    obtain ⟨ha, hb⟩ := mem_intervalMap_key lo count _ p hp
    exact Nat.ne_of_lt hb
  have hgetH : dictGet (gcCacheFrom lo (count + 1) rest).heightsInCache (lo + count) =
      some [lo + count] := by
    rw [hsplit]
    show dictGet (_ ++ _) _ = _
    rw [dictGet_append_right _ _ _ hAkeysH]
    simp [gcCacheFrom, dictGet]
  have hrecs : List.foldl (fun l h => dictDel l h)
      (gcCacheFrom lo (count + 1) rest).blockRecords [lo + count] =
      (gcCacheFrom lo count rest).blockRecords := by
    rw [hsplit]
    show List.foldl _ (_ ++ _) _ = _
    simp only [List.foldl_cons, List.foldl_nil]
    rw [dictDel_append, dictDel_eq_self _ _ hAkeysR]
    show _ ++ dictDel (_ ++ _) _ = _
    rw [dictDel_append,
      dictDel_eq_self rest.blockRecords _ ((dictGet_eq_none_iff _ _).mp h2)]
    have hone : dictDel ((List.range' (lo + count) 1).map fun i => (i, gcRecord i))
        (lo + count) = [] := by
      show dictDel [(lo + count, gcRecord (lo + count))] (lo + count) = []
      simp [dictDel]
    rw [hone]
    rfl
  have hhts : dictDel (gcCacheFrom lo (count + 1) rest).heightsInCache (lo + count) =
      (gcCacheFrom lo count rest).heightsInCache := by
    rw [hsplit]
    show dictDel (_ ++ _) _ = _
    rw [dictDel_append, dictDel_eq_self _ _ hAkeysH]
    show _ ++ dictDel (_ ++ _) _ = _
    rw [dictDel_append,
      dictDel_eq_self rest.heightsInCache _ ((dictGet_eq_none_iff _ _).mp h1)]
    have hone : dictDel ((List.range' (lo + count) 1).map fun i => (i, ([i] : List Hash)))
        (lo + count) = [] := by
      show dictDel [(lo + count, [lo + count])] (lo + count) = []
      simp [dictDel]
    rw [hone]
    rfl
  rw [cleanLoop]
  rw [hgetH]
  simp only []
  rw [hrecs, hhts]
  by_cases h0 : lo + count = 0
  · simp only [if_pos h0]
    rfl
  · simp only [if_neg h0]
    rfl

/-- The deletion run of `clean_block_record`, started at the top of a
contiguous interval of cached heights, removes exactly the interval
and leaves the remainder (whose heights and hashes all lie outside the
interval) untouched. -/
theorem cleanLoop_run (count : Nat) : ∀ (lo : Nat) (rest : ChainState),
    (lo = 0 ∨ dictGet rest.heightsInCache (lo - 1) = none) →
    (∀ k, k ≤ count → dictGet rest.heightsInCache (lo + k) = none) →
    (∀ k, k ≤ count → dictGet rest.blockRecords (lo + k) = none) →
    cleanLoop (lo + count) (gcCacheFrom lo (count + 1) rest) = rest := by
  induction count with
  | zero =>
    intro lo rest hstop h1 h2
    rw [cleanLoop_gc_step lo 0 rest (h1 0 (Nat.le_refl 0)) (h2 0 (Nat.le_refl 0))]
    cases lo with
    | zero =>
      rw [if_pos rfl]
      rfl
    | succ k =>
      rw [if_neg (by omega)]
      show cleanLoop k rest = rest
      rcases hstop with hstop | hstop
      · cases hstop
      · rw [cleanLoop, show dictGet rest.heightsInCache k = none by
          simpa using hstop]
  | succ c ih =>
    intro lo rest hstop h1 h2
    rw [cleanLoop_gc_step lo (c + 1) rest (h1 (c + 1) (Nat.le_refl _))
      (h2 (c + 1) (Nat.le_refl _))]
    rw [if_neg (by omega)]
    show cleanLoop (lo + c) (gcCacheFrom lo (c + 1) rest) = rest
    exact ih lo rest hstop (fun k hk => h1 k (by omega)) (fun k hk => h2 k (by omega))

theorem gcRecord_height (i : Nat) : (gcRecord i).height = i := rfl

theorem gcRecord_hash (i : Nat) : (gcRecord i).header_hash = i := rfl

/-- Setting a fresh key appends the entry. -/
theorem dictSet_fresh {α : Type} (l : List (Nat × α)) (k : Nat) (v : α)
    (h : dictGet l k = none) : dictSet l k v = l ++ [(k, v)] := by
  induction l with
  | nil => rfl
  | cons p rest ih =>
    obtain ⟨k', v'⟩ := p
    by_cases hk : k' = k
    · simp [dictGet, hk] at h
    · simp only [dictGet, hk, if_false] at h
      simp [dictSet, hk, ih h]

/-- No key of an interval dict below `hi` reaches `hi`. -/
theorem dictGet_intervalMap_high {α : Type} (lo n k : Nat) (f : Nat → α)
    (hk : ¬(lo ≤ k ∧ k < lo + n)) :
    dictGet ((List.range' lo n).map (fun i => (i, f i))) k = none := by
  rw [dictGet_eq_none_iff]
  intro p hp
  obtain ⟨ha, hb⟩ := mem_intervalMap_key lo n f p hp
  omega

/-- The chain state obtained by inserting, through
`add_block_record`, one block per height `0, 1, …, n − 1` (the C7
scenario's "inserting n consecutive blocks"), starting from an empty
cache with the given peak cursor. -/
def buildChainCache (n : Nat) (peak : Option Nat) : ChainState :=
  (List.range n).foldl (fun st i => st.add_block_record (gcRecord i)) (gcBase peak)

/-- Inserting blocks `0, …, n − 1` produces exactly the interval
cache. -/
theorem buildChainCache_eq (peak : Option Nat) (n : Nat) :
    buildChainCache n peak = gcCacheFrom 0 n (gcBase peak) := by
  induction n with
  | zero => rfl
  | succ m ih =>
    unfold buildChainCache
    rw [List.range_succ, List.foldl_append]
    unfold buildChainCache at ih
    rw [ih]
    simp only [List.foldl_cons, List.foldl_nil]
    have hfreshH : dictGet (gcCacheFrom 0 m (gcBase peak)).heightsInCache m = none := by
      show dictGet (_ ++ ([] : List (Nat × List Hash))) m = none
      rw [List.append_nil]
      exact dictGet_intervalMap_high 0 m m _ (by omega)
    have hfreshR : dictGet (gcCacheFrom 0 m (gcBase peak)).blockRecords m = none := by
      show dictGet (_ ++ ([] : List (Nat × BlockRecord))) m = none
      rw [List.append_nil]
      exact dictGet_intervalMap_high 0 m m _ (by omega)
    show ChainState.add_block_record _ (gcRecord m) = _
    unfold ChainState.add_block_record
    simp only [gcRecord_height, gcRecord_hash]
    rw [hfreshH]
    simp only [Option.getD_none, List.contains, List.elem_nil, Bool.false_eq_true,
      if_false, List.nil_append]
    rw [dictSet_fresh _ _ _ hfreshR, dictSet_fresh _ _ _ hfreshH]
    simp [gcCacheFrom, gcBase, List.range'_1_concat]

/-- Counterexample to C7: on the two-block fixture chain the cached
record with hash 2 has height 1, which is not `< 1`, yet
`clean_block_record 1` removes it — the deletion run starts at the
argument height itself, so "exactly the records with height < h" is
false. -/
theorem clean_block_record_counterexample :
    ChainState.block_record testState2 2 = some (testRecord 2 1 1 15)
    ∧ ¬((testRecord 2 1 1 15).height < 1)
    ∧ ChainState.contains_block (clean_block_record testState2 1) 2 = false := by
  refine ⟨rfl, by decide, ?_⟩
  have h1 : clean_block_record testState2 1 = cleanLoop 1 testState2 := by
    rw [clean_block_record, if_neg (by omega)]
    rfl
  rw [h1, cleanLoop]
  have hg : dictGet testState2.heightsInCache 1 = some [2] := rfl
  rw [hg]
  simp only [if_neg (by omega : ¬(1 : Nat) = 0)]
  rw [cleanLoop]
  rfl

/-- C7 as amended: `clean_block_record(h)` removes exactly the
records of the contiguous run of cached heights descending from `h`
itself — so records at height `h` are removed too, and nothing below a
gap in the cached heights is touched: the remainder `rest` is only
required to have no bucket at the run's heights and at the stop height
`lo − 1`, so it may hold arbitrary records below the gap, all of which
survive unchanged; consequently, after inserting
`BLOCKS_CACHE_SIZE + 100` consecutive blocks, `clean_block_records()`
leaves exactly the top `BLOCKS_CACHE_SIZE` heights (all of which
satisfy `height ≥ peak − BLOCKS_CACHE_SIZE`). -/
theorem clean_block_record_run_amended :
    (∀ (lo count : Nat) (rest : ChainState),
        (lo = 0 ∨ dictGet rest.heightsInCache (lo - 1) = none) →
        (∀ k, k ≤ count → dictGet rest.heightsInCache (lo + k) = none) →
        (∀ k, k ≤ count → dictGet rest.blockRecords (lo + k) = none) →
        clean_block_record (gcCacheFrom lo (count + 1) rest) ((lo + count : Nat) : Int) =
          rest)
    ∧ (∀ cacheSize : Nat,
        clean_block_records (buildChainCache (cacheSize + 100) (some (cacheSize + 99)))
            ⟨0, 0, 0, cacheSize, 0⟩ =
          gcCacheFrom 100 cacheSize (gcBase (some (cacheSize + 99)))) := by
  constructor
  · intro lo count rest hstop hH hR
    rw [clean_block_record, if_neg (by omega)]
    have ht : ((lo + count : Nat) : Int).toNat = lo + count := by omega
    rw [ht]
    exact cleanLoop_run count lo rest hstop hH hR
  · intro cacheSize
    rw [buildChainCache_eq]
    have hN : cacheSize + 100 = 100 + cacheSize := by omega
    have hsplit : gcCacheFrom 0 (cacheSize + 100) (gcBase (some (cacheSize + 99))) =
        gcCacheFrom 0 100 (gcCacheFrom 100 cacheSize (gcBase (some (cacheSize + 99)))) := by
      rw [hN, gcCacheFrom_append]
    rw [hsplit]
    set rest := gcCacheFrom 100 cacheSize (gcBase (some (cacheSize + 99))) with hrest
    have hlen : (gcCacheFrom 0 100 rest).blockRecords.length = 100 + cacheSize := by
      show ((List.range' 0 100).map _ ++ rest.blockRecords).length = _
      rw [hrest]
      show ((List.range' 0 100).map _ ++
        ((List.range' 100 cacheSize).map _ ++ ([] : List (Nat × BlockRecord)))).length = _
      simp [List.length_append, List.length_map, List.length_range']
    have hrestH : ∀ k, k ≤ 99 → dictGet rest.heightsInCache (0 + k) = none := by
      intro k hk
      show dictGet ((List.range' 100 cacheSize).map _ ++ ([] : List (Nat × List Hash)))
        (0 + k) = none
      rw [List.append_nil]
      exact dictGet_intervalMap_high 100 cacheSize (0 + k) _ (by omega)
    have hrestR : ∀ k, k ≤ 99 → dictGet rest.blockRecords (0 + k) = none := by
      intro k hk
      show dictGet ((List.range' 100 cacheSize).map _ ++ ([] : List (Nat × BlockRecord)))
        (0 + k) = none
      rw [List.append_nil]
      exact dictGet_intervalMap_high 100 cacheSize (0 + k) _ (by omega)
    rw [clean_block_records]
    have hc : (⟨0, 0, 0, cacheSize, 0⟩ : ConsensusConstants).BLOCKS_CACHE_SIZE = cacheSize :=
      rfl
    rw [hc]
    rw [if_neg (by rw [hlen]; omega)]
    have hp : (gcCacheFrom 0 100 rest).peakHeight = some (cacheSize + 99) := rfl
    rw [hp]
    simp only []
    rw [if_neg (show ¬(((cacheSize + 99 : Nat) : Int) - ((cacheSize : Nat) : Int) < 0) by
      omega)]
    rw [clean_block_record]
    rw [if_neg (show ¬(((cacheSize + 99 : Nat) : Int) - ((cacheSize : Nat) : Int) < 0) by
      omega)]
    have ht : (((cacheSize + 99 : Nat) : Int) - ((cacheSize : Nat) : Int)).toNat = 0 + 99 := by
      omega
    rw [ht]
    exact cleanLoop_run 99 0 rest (Or.inl rfl) hrestH hrestR

/-- Witness for C7's amended theorem: the contiguous-run deletion
evaluated with `lo = 2`, `count = 1` over an empty remainder; the same
run over a remainder that still holds a record at height 0 below the
gap at height 1, which survives untouched; and the GC scenario at
`BLOCKS_CACHE_SIZE = 2`. -/
theorem clean_block_record_run_amended_witness :
    clean_block_record (gcCacheFrom 2 2 (gcBase (some 3))) ((3 : Nat) : Int) =
      gcBase (some 3)
    ∧ clean_block_record (gcCacheFrom 2 2 (gcCacheFrom 0 1 (gcBase (some 5))))
        ((3 : Nat) : Int) = gcCacheFrom 0 1 (gcBase (some 5))
    ∧ dictGet (gcCacheFrom 0 1 (gcBase (some 5))).blockRecords 0 = some (gcRecord 0)
    ∧ clean_block_records (buildChainCache 102 (some 101)) ⟨0, 0, 0, 2, 0⟩ =
      gcCacheFrom 100 2 (gcBase (some 101)) :=
  ⟨clean_block_record_run_amended.1 2 1 (gcBase (some 3)) (Or.inr rfl)
      (by decide) (by decide),
   clean_block_record_run_amended.1 2 1 (gcCacheFrom 0 1 (gcBase (some 5))) (Or.inr rfl)
      (by decide) (by decide),
   by decide,
   clean_block_record_run_amended.2 2⟩

/-! ### Pre-validation pipeline lemmas -/

/-- An element paired with its image lies in the zip with the map. -/
theorem mem_zip_map_self {α β : Type} (f : α → β) (l : List α) (b : α) (hb : b ∈ l) :
    (b, f b) ∈ l.zip (l.map f) := by
  induction l with
  | nil => cases hb
  | cons a t ih =>
    rcases List.mem_cons.mp hb with rfl | hb'
    · exact List.mem_cons_self _ _
    · exact List.mem_cons_of_mem _ (ih hb')

/-- In the zip of a list with its own map, the flag is the image of
the element. -/
theorem zip_map_self_snd {α β : Type} (f : α → β) (l : List α) (p : α × β)
    (hp : p ∈ l.zip (l.map f)) : p.2 = f p.1 := by
  induction l with
  | nil => cases hp
  | cons a t ih =>
    rcases List.mem_cons.mp hp with rfl | hp'
    · rfl
    · exact ih hp'

/-- A key is absent from an append iff absent from both parts. -/
theorem dictGet_append_none_iff {α : Type} (A B : List (Nat × α)) (k : Nat) :
    dictGet (A ++ B) k = none ↔ dictGet A k = none ∧ dictGet B k = none := by
  simp only [dictGet_eq_none_iff, List.mem_append]
  constructor
  · intro h
    exact ⟨fun p hp => h p (Or.inl hp), fun p hp => h p (Or.inr hp)⟩
  · rintro ⟨h1, h2⟩ p (hp | hp)
    · exact h1 p hp
    · exact h2 p hp

/-- The contains-checked cleanup fold restores the original view: it
deletes exactly the entries whose keys are hashes of not-previously-
present blocks, and every tentative entry has such a key. -/
theorem removeStep_fold_restores :
    ∀ (pairs : List (PreValBlock × Bool)) (A E : RecordsView),
    (∀ p ∈ pairs, p.2 = false → dictGet A p.1.header_hash = none) →
    (∀ q ∈ E, ∃ p ∈ pairs, p.2 = false ∧ q.1 = p.1.header_hash) →
    (E.map (·.1)).Nodup →
    pairs.foldl (removeStep true) (A ++ E) = A := by
  intro pairs
  induction pairs with
  | nil =>
    intro A E hA hE hEd
    cases E with
    | nil => simp
    | cons q t =>
      rcases hE q (List.mem_cons_self _ _) with ⟨p, hp, _⟩
      cases hp
  | cons pr rest ih =>
    intro A E hA hE hEd
    obtain ⟨b, flag⟩ := pr
    simp only [List.foldl_cons]
    cases flag with
    | true =>
      have hstep : removeStep true (A ++ E) (b, true) = A ++ E := by
        simp [removeStep]
      rw [hstep]
      refine ih A E (fun p hp h => hA p (List.mem_cons_of_mem _ hp) h) ?_ hEd
      intro q hq
      rcases hE q hq with ⟨p, hp, hfalse, hkey⟩
      rcases List.mem_cons.mp hp with rfl | hp'
      · cases hfalse
      · exact ⟨p, hp', hfalse, hkey⟩
    | false =>
      have hAnone : dictGet A b.header_hash = none :=
        hA (b, false) (List.mem_cons_self _ _) rfl
      by_cases hco : dictContains (A ++ E) b.header_hash = true
      · have hstep : removeStep true (A ++ E) (b, false) =
            A ++ dictDel E b.header_hash := by
          simp only [removeStep, hco]
          rw [if_pos (by simp [hco])]
          rw [dictDel_append,
            dictDel_eq_self A _ ((dictGet_eq_none_iff _ _).mp hAnone)]
        rw [hstep]
        refine ih A (dictDel E b.header_hash)
          (fun p hp h => hA p (List.mem_cons_of_mem _ hp) h) ?_ ?_
        · intro q hq
          have hq' : q ∈ E := List.mem_of_mem_filter hq
          have hqkey : q.1 ≠ b.header_hash := by
            have := List.of_mem_filter hq
            simpa using this
          rcases hE q hq' with ⟨p, hp, hfalse, hkey⟩
          rcases List.mem_cons.mp hp with rfl | hp'
          · exact absurd hkey hqkey
          · exact ⟨p, hp', hfalse, hkey⟩
        · exact List.Nodup.sublist (List.Sublist.map _ (List.filter_sublist E)) hEd
      · have hstep : removeStep true (A ++ E) (b, false) = A ++ E := by
          simp only [removeStep]
          rw [if_neg]
          simp only [not_and, not_or]
          intro _
          constructor
          · simp
          · simpa using hco
        rw [hstep]
        have hEnone : dictGet E b.header_hash = none := by
          have := (dictGet_append_none_iff A E b.header_hash).mp ?_
          · exact this.2
          · rw [← Option.not_isSome_iff_eq_none]
            simpa [dictContains] using hco
        refine ih A E (fun p hp h => hA p (List.mem_cons_of_mem _ hp) h) ?_ hEd
        intro q hq
        rcases hE q hq with ⟨p, hp, hfalse, hkey⟩
        rcases List.mem_cons.mp hp with rfl | hp'
        · exact absurd hkey ((dictGet_eq_none_iff _ _).mp hEnone q hq)
        · exact ⟨p, hp', hfalse, hkey⟩

/-- A dict does not contain a key iff lookup yields `none`. -/
theorem dictContains_false_iff {α : Type} (l : List (Nat × α)) (k : Nat) :
    dictContains l k = false ↔ dictGet l k = none := by
  unfold dictContains
  cases dictGet l k <;> simp

/-- Through the per-block loop, the view stays "the original view plus
tentative entries keyed by hashes of not-previously-present blocks";
hence the loop never reports `INVALID_PREV_BLOCK_HASH`, and on
`INVALID_POSPACE` its cleanup restores the original view exactly. -/
theorem preValLoop_restores (blocks : List PreValBlock) (wp : Bool) (view₀ : RecordsView)
    (hrec : ∀ b ∈ blocks, ∀ r, b.blockRec = some r → r.header_hash = b.header_hash) :
    ∀ (rest : List PreValBlock) (E : RecordsView),
    (∀ b ∈ rest, b ∈ blocks) →
    (∀ q ∈ E, ∃ p ∈ blocks.zip (blocks.map (fun b => dictContains view₀ b.header_hash)),
        p.2 = false ∧ q.1 = p.1.header_hash) →
    (E.map (·.1)).Nodup →
    ((preValLoop blocks (blocks.map (fun b => dictContains view₀ b.header_hash)) wp rest
        (view₀ ++ E)).1 ≠ PreValOutcome.errorPrevHash)
    ∧ ((preValLoop blocks (blocks.map (fun b => dictContains view₀ b.header_hash)) wp rest
        (view₀ ++ E)).1 = PreValOutcome.errorPospace →
      (preValLoop blocks (blocks.map (fun b => dictContains view₀ b.header_hash)) wp rest
        (view₀ ++ E)).2 = view₀) := by
  intro rest
  induction rest with
  | nil =>
    intro E hsub hE hEd
    constructor
    · simp [preValLoop]
    · intro h
      simp [preValLoop] at h
  | cons b rest' ih =>
    intro E hsub hE hEd
    have hbmem : b ∈ blocks := hsub b (List.mem_cons_self _ _)
    have hsub' : ∀ x ∈ rest', x ∈ blocks := fun x hx => hsub x (List.mem_cons_of_mem _ hx)
    have hA : ∀ p ∈ blocks.zip (blocks.map (fun x => dictContains view₀ x.header_hash)),
        p.2 = false → dictGet view₀ p.1.header_hash = none := by
      intro p hp hflag
      have hsnd := zip_map_self_snd _ blocks p hp
      rw [hflag] at hsnd
      exact (dictContains_false_iff _ _).mp hsnd.symm
    by_cases hq : b.qualityOk
    · cases hbr : b.blockRec with
      | none =>
        constructor
        · simp [preValLoop, hq, hbr]
        · intro h
          simp [preValLoop, hq, hbr] at h
      | some r =>
        by_cases hses : r.sub_epoch_summary_included.isSome ∧ wp ∧ ¬b.sesMatches
        · constructor
          · simp [preValLoop, hq, hbr, hses]
          · intro h
            simp [preValLoop, hq, hbr, hses] at h
        · by_cases hnc : dictContains (view₀ ++ E) r.header_hash
          · have hred : preValLoop blocks
                (blocks.map (fun x => dictContains view₀ x.header_hash)) wp (b :: rest')
                (view₀ ++ E) =
                preValLoop blocks
                  (blocks.map (fun x => dictContains view₀ x.header_hash)) wp rest'
                  (view₀ ++ E) := by
              conv_lhs => rw [preValLoop]
              rw [if_neg (show ¬¬(b.qualityOk = true) by simp [hq])]
              rw [hbr]
              simp only []
              rw [if_neg hses]
              rw [if_neg (show ¬¬(dictContains (view₀ ++ E) r.header_hash = true) by
                simp [hnc])]
            rw [hred]
            exact ih E hsub' hE hEd
          · have hfresh : dictGet (view₀ ++ E) r.header_hash = none :=
              (dictContains_false_iff _ _).mp (by simpa using hnc)
            have hred : preValLoop blocks
                (blocks.map (fun x => dictContains view₀ x.header_hash)) wp (b :: rest')
                (view₀ ++ E) =
                preValLoop blocks
                  (blocks.map (fun x => dictContains view₀ x.header_hash)) wp rest'
                  (view₀ ++ (E ++ [(r.header_hash, r)])) := by
              conv_lhs => rw [preValLoop]
              rw [if_neg (show ¬¬(b.qualityOk = true) by simp [hq])]
              rw [hbr]
              simp only []
              rw [if_neg hses]
              rw [if_pos hnc]
              rw [dictSet_fresh _ _ _ hfresh, List.append_assoc]
            rw [hred]
            refine ih (E ++ [(r.header_hash, r)]) hsub' ?_ ?_
            · intro q hq'
              rcases List.mem_append.mp hq' with hq1 | hq2
              · exact hE q hq1
              · have hqe : q = (r.header_hash, r) := by simpa using hq2
                subst hqe
                have hrh : r.header_hash = b.header_hash := hrec b hbmem r hbr
                have hv0 : dictGet view₀ b.header_hash = none := by
                  rw [← hrh]
                  exact ((dictGet_append_none_iff _ _ _).mp hfresh).1
                have hflag : dictContains view₀ b.header_hash = false :=
                  (dictContains_false_iff _ _).mpr hv0
                refine ⟨(b, false), ?_, rfl, by simp [hrh]⟩
                have hmz : (b, dictContains view₀ b.header_hash) ∈
                    blocks.zip (blocks.map (fun x => dictContains view₀ x.header_hash)) := by
                  simpa using mem_zip_map_self
                    (fun x => dictContains view₀ x.header_hash) blocks b hbmem
                rwa [hflag] at hmz
            · have hEnone : dictGet E r.header_hash = none :=
                ((dictGet_append_none_iff _ _ _).mp hfresh).2
              have hnotin : r.header_hash ∉ E.map (·.1) := by
                intro hmem
                rcases List.mem_map.mp hmem with ⟨q, hq', hkey⟩
                exact ((dictGet_eq_none_iff _ _).mp hEnone q hq') hkey
              simp [List.nodup_append, hEd, hnotin]
    · constructor
      · simp [preValLoop, hq]
      · intro _
        have hres : (preValLoop blocks
            (blocks.map (fun x => dictContains view₀ x.header_hash)) wp (b :: rest')
            (view₀ ++ E)).2 =
            removeTentative (view₀ ++ E) blocks
              (blocks.map (fun x => dictContains view₀ x.header_hash)) true := by
          simp [preValLoop, hq]
        rw [hres]
        exact removeStep_fold_restores _ view₀ E hA hE hEd

/-- C8 as amended: when `pre_validate_blocks_multiprocessing` returns
`INVALID_PREV_BLOCK_HASH` or `INVALID_POSPACE`, the block-records view
is left exactly as it was before the call (every tentatively inserted
record is removed); the hypothesis is the collaborator contract that
`block_to_block_record` keys the derived record by the block's own
header hash.  (On the `INVALID_SUB_EPOCH_SUMMARY` returns the cleanup
is skipped and tentative records from earlier blocks remain — see the
counterexample.) -/
theorem pre_validate_restores (view : RecordsView) (blocks : List PreValBlock) (wp : Bool)
    (hrec : ∀ b ∈ blocks, ∀ r, b.blockRec = some r → r.header_hash = b.header_hash) :
    ((pre_validate_blocks_multiprocessing view blocks wp).1 = PreValOutcome.errorPrevHash →
      (pre_validate_blocks_multiprocessing view blocks wp).2 = view)
    ∧ ((pre_validate_blocks_multiprocessing view blocks wp).1 = PreValOutcome.errorPospace →
      (pre_validate_blocks_multiprocessing view blocks wp).2 = view) := by
  cases blocks with
  | nil =>
    constructor
    · intro _
      rfl
    · intro h
      simp [pre_validate_blocks_multiprocessing] at h
  | cons first rest =>
    by_cases hpc : first.height > 0 ∧ ¬dictContains view first.prev_header_hash
    · constructor
      · intro _
        simp [pre_validate_blocks_multiprocessing, hpc]
      · intro h
        simp [pre_validate_blocks_multiprocessing, hpc] at h
    · have hred : pre_validate_blocks_multiprocessing view (first :: rest) wp =
          preValLoop (first :: rest)
            ((first :: rest).map (fun b => dictContains view b.header_hash)) wp
            (first :: rest) view := by
        unfold pre_validate_blocks_multiprocessing
        simp only []
        rw [if_neg hpc]
      rw [hred]
      have hmain := preValLoop_restores (first :: rest) wp view hrec (first :: rest) []
        (fun b hb => hb) (by intro q hq'; cases hq') (by simp)
      rw [List.append_nil] at hmain
      exact ⟨fun h => absurd h hmain.1, hmain.2⟩

/-- A pre-validation fixture block: genesis, valid PoSpace, with a
derived record. -/
def pvGood : PreValBlock := ⟨10, 0, 0, true, some (testRecord 10 0 0 1), true⟩

/-- A fixture block whose `block_to_block_record` raises `ValueError`
(`blockRec = none`), triggering `INVALID_SUB_EPOCH_SUMMARY`. -/
def pvSesErr : PreValBlock := ⟨11, 10, 1, true, none, true⟩

/-- A fixture block whose PoSpace quality check fails, triggering
`INVALID_POSPACE`. -/
def pvPosErr : PreValBlock := ⟨11, 10, 1, false, none, true⟩

/-- A fixture block whose parent is unknown to the view, triggering
`INVALID_PREV_BLOCK_HASH`. -/
def pvOrphan : PreValBlock := ⟨20, 5, 1, true, none, true⟩

/-- Counterexample to C8: on the batch `[pvGood, pvSesErr]` over an
empty view, the pipeline returns `INVALID_SUB_EPOCH_SUMMARY` yet
leaves `pvGood`'s tentatively inserted record in the view — the
`INVALID_SUB_EPOCH_SUMMARY` returns skip the tentative-record
cleanup. -/
theorem pre_validate_ses_leak :
    pre_validate_blocks_multiprocessing [] [pvGood, pvSesErr] false =
      (PreValOutcome.errorSubEpochSummary, [(10, testRecord 10 0 0 1)])
    ∧ ([(10, testRecord 10 0 0 1)] : RecordsView) ≠ [] := by
  constructor
  · rfl
  · decide

/-- Witness for C8's amended theorem: an unknown-parent batch and a
failed-PoSpace batch (the latter after one tentative insert), both
leaving the empty view empty. -/
theorem pre_validate_restores_witness :
    (pre_validate_blocks_multiprocessing [] [pvOrphan] false).2 = ([] : RecordsView)
    ∧ (pre_validate_blocks_multiprocessing [] [pvGood, pvPosErr] false).2 =
      ([] : RecordsView) :=
  ⟨(pre_validate_restores [] [pvOrphan] false
      (by
        intro b hb r hr
        rcases List.mem_cons.mp hb with rfl | hb'
        · cases hr
        · cases hb')).1 (by decide),
   (pre_validate_restores [] [pvGood, pvPosErr] false
      (by
        intro b hb r hr
        rcases List.mem_cons.mp hb with rfl | hb'
        · injection hr with h
          subst h
          rfl
        · rcases List.mem_cons.mp hb' with rfl | hb''
          · cases hr
          · cases hb'')).2 (by decide)⟩

/-! ### Recent-reward-challenge lemmas -/

/-- The backward walk from `r` through the cache visits exactly the
records of `chain` and then falls off the cache. -/
def IsBackChain (st : ChainState) : BlockRecord → List BlockRecord → Prop
  | r, [] => st.try_block_record r.prev_hash = none
  | r, s :: rest => st.try_block_record r.prev_hash = some s ∧ IsBackChain st s rest

/-- A finished walk (no cached parent) leaves the accumulator. -/
theorem recentRcLoop_none (st : ChainState) (maxLen : Nat) (peakHash : Hash)
    (fuel : Nat) (acc : List (Hash × Nat)) :
    recentRcLoop st maxLen peakHash fuel none acc = acc := by
  cases fuel <;> rfl

/-- On a walk segment with no sub-slot starts, below the peak, the
loop appends exactly one pair per record until the accumulator reaches
`maxLen` entries. -/
theorem recentRcLoop_no_subslots (st : ChainState) (maxLen : Nat) (peakHash : Hash) :
    ∀ (chain : List BlockRecord) (fuel : Nat) (acc : List (Hash × Nat)) (r : BlockRecord),
    IsBackChain st r chain →
    r.first_in_sub_slot = false → (∀ s ∈ chain, s.first_in_sub_slot = false) →
    r.header_hash ≠ peakHash → (∀ s ∈ chain, s.header_hash ≠ peakHash) →
    chain.length + 1 ≤ fuel →
    recentRcLoop st maxLen peakHash fuel (some r) acc =
      (if maxLen ≤ acc.length then acc
       else acc ++ ((r :: chain).take (maxLen - acc.length)).map
         (fun s => (s.reward_infusion_new_challenge, s.total_iters))) := by
  intro chain
  induction chain with
  | nil =>
    intro fuel acc r hchain hss _ hne _ hfuel
    cases fuel with
    | zero => omega
    | succ f =>
      rw [recentRcLoop]
      by_cases hlen : maxLen ≤ acc.length
      · rw [if_pos hlen, if_pos hlen]
      · rw [if_neg hlen, if_neg hlen]
        simp only []
        rw [if_pos hne]
        rw [if_neg (show ¬(r.first_in_sub_slot = true) by simp [hss])]
        rw [show st.try_block_record r.prev_hash = none from hchain]
        rw [recentRcLoop_none]
        have htake : maxLen - acc.length = (maxLen - acc.length - 1) + 1 := by omega
        rw [htake, List.take_succ_cons, List.take_nil]
        rfl
  | cons c rest ih =>
    intro fuel acc r hchain hss hssall hne hneall hfuel
    cases fuel with
    | zero => omega
    | succ f =>
      obtain ⟨hstep, hchain'⟩ := hchain
      rw [recentRcLoop]
      by_cases hlen : maxLen ≤ acc.length
      · rw [if_pos hlen, if_pos hlen]
      · rw [if_neg hlen, if_neg hlen]
        simp only []
        rw [if_pos hne]
        rw [if_neg (show ¬(r.first_in_sub_slot = true) by simp [hss])]
        rw [hstep]
        rw [ih f (acc ++ [(r.reward_infusion_new_challenge, r.total_iters)]) c hchain'
          (hssall c (List.mem_cons_self _ _))
          (fun s hs => hssall s (List.mem_cons_of_mem _ hs))
          (hneall c (List.mem_cons_self _ _))
          (fun s hs => hneall s (List.mem_cons_of_mem _ hs))
          (by simp at hfuel ⊢; omega)]
        by_cases hlen2 : maxLen ≤ acc.length + 1
        · rw [if_pos (by simp; omega)]
          have htake : maxLen - acc.length = 1 := by omega
          rw [htake]
          rfl
        · rw [if_neg (by simp; omega)]
          have htake : maxLen - acc.length = (maxLen - (acc.length + 1)) + 1 := by omega
          rw [htake, List.take_succ_cons]
          simp [List.append_assoc]

/-- C9 as amended: `get_recent_reward_challenges` walks backward from
the peak appending, for each block strictly below the peak, its
`(reward_infusion_new_challenge, total_iters)` pair — the peak's own
pair is excluded — and stops before processing a further block once
`2·MAX_SUB_SLOT_BLOCKS` entries have accumulated; on a chain where no
visited block starts a sub-slot the returned list is exactly the
pairs of the last `min(2·MAX_SUB_SLOT_BLOCKS, number of blocks below
the peak)` blocks, in chronological order. -/
theorem get_recent_reward_challenges_amended (st : ChainState)
    (constants : ConsensusConstants) (fuel : Nat) (peak : BlockRecord)
    (chain : List BlockRecord)
    (hpeak : st.get_peak = some (some peak))
    (hchain : IsBackChain st peak chain)
    (hssp : peak.first_in_sub_slot = false)
    (hss : ∀ s ∈ chain, s.first_in_sub_slot = false)
    (hne : ∀ s ∈ chain, s.header_hash ≠ peak.header_hash)
    (hfuel : chain.length + 2 ≤ fuel) :
    get_recent_reward_challenges st constants fuel =
      some (((chain.take (2 * constants.MAX_SUB_SLOT_BLOCKS)).map
        (fun s => (s.reward_infusion_new_challenge, s.total_iters))).reverse) := by
  unfold get_recent_reward_challenges
  rw [hpeak]
  simp only []
  cases fuel with
  | zero => omega
  | succ f =>
    rw [recentRcLoop]
    by_cases hm : 2 * constants.MAX_SUB_SLOT_BLOCKS ≤ ([] : List (Hash × Nat)).length
    · rw [if_pos hm]
      have hz : 2 * constants.MAX_SUB_SLOT_BLOCKS = 0 := by simpa using hm
      rw [hz, List.take_zero]
      rfl
    · rw [if_neg hm]
      simp only []
      rw [if_neg (show ¬(peak.header_hash ≠ peak.header_hash) by simp)]
      rw [if_neg (show ¬(peak.first_in_sub_slot = true) by simp [hssp])]
      cases chain with
      | nil =>
        rw [show st.try_block_record peak.prev_hash = none from hchain]
        rw [recentRcLoop_none]
        simp
      | cons c rest =>
        obtain ⟨hstep, hchain'⟩ := hchain
        rw [hstep]
        rw [recentRcLoop_no_subslots st (2 * constants.MAX_SUB_SLOT_BLOCKS)
          peak.header_hash rest f [] c hchain'
          (hss c (List.mem_cons_self _ _))
          (fun s hs => hss s (List.mem_cons_of_mem _ hs))
          (hne c (List.mem_cons_self _ _))
          (fun s hs => hne s (List.mem_cons_of_mem _ hs))
          (by simp at hfuel ⊢; omega)]
        rw [if_neg hm]
        simp

/-- A below-peak fixture record that starts a sub-slot with three
finished reward-sub-slot hashes. -/
def rcBelow : BlockRecord :=
  ⟨1, 900, 0, 10, 7, true, false, 10, 5, none, some [41, 42, 43], none, none, 0, 100⟩

/-- The peak fixture record above `rcBelow`. -/
def rcPeak : BlockRecord :=
  ⟨2, 1, 1, 20, 9, false, false, 10, 6, none, none, none, none, 0, 0⟩

/-- A two-block chain with a sub-slot start below the peak. -/
def rcState : ChainState :=
  { blockRecords := [(1, rcBelow), (2, rcPeak)],
    heightsInCache := [(0, [1]), (1, [2])],
    heightMap := ⟨[(0, (1, none)), (1, (2, none))]⟩,
    peakHeight := some 1,
    store := ⟨[], [], none, []⟩ }

/-- Counterexample to C9: with `MAX_SUB_SLOT_BLOCKS = 1` on `rcState`,
`get_recent_reward_challenges` returns four entries — more than
`2·MAX_SUB_SLOT_BLOCKS = 2` — and the peak's own
`(reward_infusion_new_challenge, total_iters)` pair `(6, 9)` is not
among them: the source appends a pair only when `curr != peak`, and
the sub-slot inner loop is not bounded by the length check. -/
theorem get_recent_reward_challenges_counterexample :
    get_recent_reward_challenges rcState ⟨99, 77, 42, 4, 1⟩ 5 =
      some [(41, 80), (42, 90), (43, 100), (5, 7)]
    ∧ rcState.get_peak = some (some rcPeak)
    ∧ (rcPeak.reward_infusion_new_challenge, rcPeak.total_iters) ∉
        ([(41, 80), (42, 90), (43, 100), (5, 7)] : List (Hash × Nat))
    ∧ 2 * (⟨99, 77, 42, 4, 1⟩ : ConsensusConstants).MAX_SUB_SLOT_BLOCKS <
        ([(41, 80), (42, 90), (43, 100), (5, 7)] : List (Hash × Nat)).length := by
  refine ⟨by decide, by decide, by decide, by decide⟩

/-- Witness for C9's amended theorem: on the two-block fixture chain
(no sub-slot starts), the returned list is exactly the pair of the one
block below the peak. -/
theorem get_recent_reward_challenges_amended_witness :
    get_recent_reward_challenges testState2 ⟨99, 77, 42, 4, 8⟩ 5 =
      some ((([testRecord 1 900 0 10].take
          (2 * (⟨99, 77, 42, 4, 8⟩ : ConsensusConstants).MAX_SUB_SLOT_BLOCKS)).map
        (fun s => (s.reward_infusion_new_challenge, s.total_iters))).reverse) :=
  get_recent_reward_challenges_amended testState2 ⟨99, 77, 42, 4, 8⟩ 5
    (testRecord 2 1 1 15) [testRecord 1 900 0 10] (by decide) ⟨rfl, rfl⟩ rfl
    (by decide) (by decide) (by decide)

end Corpochain
